import Mathlib

/-!
# baselineEToData/dataPreparer.c

A shallow embedding of the raster preparation tool: the 32-byte header writer
(`copyBytes`, `setHeader`), the range scan (`findPixelRange`), the bit-depth
reduction (`reduceBitDepth`) and the gap-fill pass (`fillMissingPixels`).

Conventions of the embedding.

* A raster file body is the sequence of its rows, `List (List Nat)`; one `fread`
  of `IMAGE_WIDTH` samples takes the next row off the stream and a missing or
  short row is the end-of-file branch (`exit(1)`), rendered as `none`.
* The image and mask dimensions are parameters `W H MW` and the crop offset is
  a parameter `crop`; the program is the instance `IMAGE_WIDTH`, `IMAGE_HEIGHT`,
  `MASK_WIDTH`, `CROPPED_TOP_PIXELS`.
* `double`/`float` values that the program computes exactly are rationals:
  `bitReductionFactor` is `(max - min + 1) / 256` with a numerator below `2^24`
  and a power-of-two denominator, so the `float` division is exact; the
  quotient `(pixel - min) / bitReductionFactor` is correctly rounded and is
  either an integer or at least `1 / 65536` away from one, so truncating the
  rounded quotient equals truncating the exact one.  The same holds for the
  `float` accumulator of the stencil, which only holds integers below `2^24`.
-/

namespace DataPreparer

/-! ## Constants (lines 6-14) -/

def IMAGE_WIDTH : Nat := 43200
def IMAGE_HEIGHT : Nat := 16800
def MASK_WIDTH : Nat := 10800
def MASK_HEIGHT : Nat := 5400
def HEADER_SIZE : Nat := 32

/-- The initialiser of line 14, `MASK_WIDTH * MASK_HEIGHT * 10 / 180`. -/
def CROPPED_TOP_PIXELS : Nat := MASK_WIDTH * MASK_HEIGHT * 10 / 180

/-! ## Header (lines 21-58) -/

/-- The object representation of an unsigned `length`-byte value in the memory
of the host: least significant byte first on a little-endian host, most
significant byte first on a big-endian one. -/
def objectBytes (bigEndianHost : Bool) (length value : Nat) : List Nat :=
  let littleFirst := (List.range length).map (fun k => value / 256 ^ k % 256)
  if bigEndianHost then littleFirst.reverse else littleFirst

/-- Function `copyBytes(input, output, length)`, lines 22-30: `input` is the object
representation read through the `uint8_t*`, the result is `output[0..length)`.
The probe of line 24 reads the first byte of the `unsigned` value `1`. -/
def copyBytes (bigEndianHost : Bool) (input : List Nat) (length : Nat) : List Nat :=
  let isBigEndian : Bool := (objectBytes bigEndianHost 4 1).getD 0 0 == 0
  (List.range length).map
    (fun i =>
      let index := if isBigEndian then i else length - i - 1
      input.getD index 0)

/-- Stores `bytes` at `buffer[offset ..]`, the effect of passing `&(header[offset])`
as the output of `copyBytes`, or of one assignment `header[offset] = b`. -/
def writeAt (buffer : List Nat) (offset : Nat) (bytes : List Nat) : List Nat :=
  buffer.take offset ++ bytes ++ buffer.drop (offset + bytes.length)

/-- The statements of `setHeader` (lines 36-57) with the values of its locals as
arguments: `version` and `bitDepth` are the bytes stored at offsets 0 and 9,
`width`, `height` the `uint32_t` locals, `minimumETo`, `scalingFactor` the 32-bit
patterns of the two `float` locals. -/
def writeHeader (bigEndianHost : Bool)
    (version width height bitDepth minimumETo scalingFactor : Nat) : List Nat :=
  let header := List.replicate HEADER_SIZE 0
  let header := writeAt header 0 [version]
  let header := writeAt header 1 (copyBytes bigEndianHost (objectBytes bigEndianHost 4 width) 4)
  let header := writeAt header 5 (copyBytes bigEndianHost (objectBytes bigEndianHost 4 height) 4)
  let header := writeAt header 9 [bitDepth]
  let header := writeAt header 10 (copyBytes bigEndianHost (objectBytes bigEndianHost 4 minimumETo) 4)
  writeAt header 14 (copyBytes bigEndianHost (objectBytes bigEndianHost 4 scalingFactor) 4)

/-- Function `setHeader(header)`, lines 35-58.  `minimumETo` and `scalingFactor` are the
32-bit patterns of the `float` values of lines 43-44 (computed from the globals
`minPixelValue` and `bitReductionFactor`). -/
def setHeader (bigEndianHost : Bool) (minimumETo scalingFactor : Nat) : List Nat :=
  writeHeader bigEndianHost 1 IMAGE_WIDTH IMAGE_HEIGHT 8 minimumETo scalingFactor

/-- The six fields of the container header. -/
structure RasterHeader where
  version : Nat
  width : Nat
  height : Nat
  bitDepth : Nat
  minETo : Nat
  scalingFactor : Nat
deriving DecidableEq, Repr

/-- The encoder applied to a header value: the stores of `setHeader`. -/
def encodeHeader (bigEndianHost : Bool) (h : RasterHeader) : List Nat :=
  writeHeader bigEndianHost h.version h.width h.height h.bitDepth h.minETo h.scalingFactor

/-- Modelled from the spec: the reader of a multi-byte field, absent from the
sources; it reads four bytes at `offset`, most significant byte first. -/
def readU32 (bytes : List Nat) (offset : Nat) : Nat :=
  ((bytes.getD offset 0 * 256 + bytes.getD (offset + 1) 0) * 256
    + bytes.getD (offset + 2) 0) * 256 + bytes.getD (offset + 3) 0

/-- Modelled from the spec: the header decoder, absent from the sources; the
layout is version at 0, width at 1, height at 5, bit depth at 9, minimum ETo at
10 and scaling factor at 14. -/
def decodeHeader (bytes : List Nat) : RasterHeader :=
  { version := bytes.getD 0 0
    width := readU32 bytes 1
    height := readU32 bytes 5
    bitDepth := bytes.getD 9 0
    minETo := readU32 bytes 10
    scalingFactor := readU32 bytes 14 }

/-! ## Reading rows -/

/-- One `fread` of a row of `W` samples from a stream of rows: the row and the
rest of the stream, or `none` when the stream ends first (the `feof` exit). -/
def readRow (W : Nat) (file : List (List Nat)) : Option (List Nat × List (List Nat)) :=
  match file with
  | [] => none
  | row :: rest => if row.length = W then some (row, rest) else none

/-! ## Range scan (lines 65-110) -/

/-- Result of `findPixelRange`: the three out-parameters. -/
structure PixelStats where
  minPixelValue : Nat
  maxPixelValue : Nat
  bitReductionFactor : ℚ

/-- Lines 93-100, one sample: fill samples are skipped, the others update the
running minimum and maximum. -/
def scanPixel (acc : Nat × Nat) (pixel : Nat) : Nat × Nat :=
  if pixel > 65528 then acc
  else (if pixel < acc.1 then pixel else acc.1, if pixel > acc.2 then pixel else acc.2)

/-- Lines 77-102: `n` more rows are read and scanned. -/
def scanRows (W : Nat) : Nat → List (List Nat) → Nat × Nat → Option (Nat × Nat)
  | 0, _, acc => some acc
  | n + 1, file, acc =>
    match readRow W file with
    | none => none
    | some (buffer, rest) => scanRows W n rest (buffer.foldl scanPixel acc)

/-- Function `findPixelRange`, lines 65-110, on the body of the source raster.  The
expression of line 106 is evaluated on `int` and divided by `(float) 256`. -/
def findPixelRange (W H : Nat) (file : List (List Nat)) : Option PixelStats :=
  match scanRows W H file (0xFFFF, 0) with
  | none => none
  | some (minValue, maxValue) =>
    some { minPixelValue := minValue
           maxPixelValue := maxValue
           bitReductionFactor := (((maxValue : ℤ) - (minValue : ℤ) + 1 : ℤ) : ℚ) / 256 }

/-- The non-fill samples of a raster, in file order. -/
def validSamples (file : List (List Nat)) : List Nat :=
  file.flatten.filter (fun v => v ≤ 65528)

/-! ## Bit-depth reduction (lines 113-172) -/

/-- The conversion `(uint8_t) d` of a floating value: the fraction is dropped
(rounding toward zero).  For a value whose integer part lies in `[0, 255]` this
is the C conversion.  Outside that range C leaves the conversion undefined;
the low eight bits kept here are a convention, and no theorem below rests on
it: `reduceBitDepth` only converts quotients of samples between the scanned
minimum and maximum, which lie in `[0, 255]`. -/
def toUint8 (d : ℚ) : Nat :=
  (Int.toNat ((if 0 ≤ d then ⌊d⌋ else ⌈d⌉) % 256))

/-- Line 157: the reduced sample of `originalPixel`. -/
def reducedPixel (minPixelValue : Nat) (bitReductionFactor : ℚ) (originalPixel : Nat) : Nat :=
  if originalPixel > 65528 then 255
  else toUint8 ((((originalPixel : ℤ) - (minPixelValue : ℤ) : ℤ) : ℚ) / bitReductionFactor)

/-- Lines 140-166: `n` more rows are read, reduced and written. -/
def reduceRows (W : Nat) (minPixelValue : Nat) (bitReductionFactor : ℚ) :
    Nat → List (List Nat) → List (List Nat) → Option (List (List Nat))
  | 0, _, written => some written
  | n + 1, file, written =>
    match readRow W file with
    | none => none
    | some (inputBuffer, rest) =>
      reduceRows W minPixelValue bitReductionFactor n rest
        (written ++ [inputBuffer.map (reducedPixel minPixelValue bitReductionFactor)])

/-- Function `reduceBitDepth`, lines 113-172: the body of the reduced raster (the header
written at line 132 is `setHeader`). -/
def reduceBitDepth (W H : Nat) (stats : PixelStats) (file : List (List Nat)) :
    Option (List (List Nat)) :=
  reduceRows W stats.minPixelValue stats.bitReductionFactor H file []

/-! ## Gap-fill pass (lines 174-335) -/

/-- The three counters of lines 238-240. -/
structure PassResult where
  fixedPixels : Nat
  unfixablePixels : Nat
  waterPixels : Nat
deriving DecidableEq, Repr

/-- Line 304: `5 - (abs(i) + abs(j))`, an `unsigned`; no wrap for `|i|, |j| ≤ 2`. -/
def weight (i j : Int) : Nat := 5 - (i.natAbs + j.natAbs)

/-- Lines 293-306, the body of the inner stencil loop at offset `(i, j)`.
`acc` is `(totalWeight, neighborTotal)`; `rows` is the window of five row
pointers, `none` being the null pointer.  Dereferencing a null row or reading
past the end of a row has no result. -/
def neighborStep (W H : Nat) (rows : List (Option (List Nat))) (x y : Nat)
    (acc : Nat × Nat) (i j : Int) : Option (Nat × Nat) :=
  let neighborX : Int := (x : Int) + i
  let neighborY : Int := (y : Int) + j
  if neighborX < 0 ∨ neighborX ≥ (W : Int) ∨ neighborY < 0 ∨ neighborY ≥ (H : Int) then
    some acc
  else
    match rows.getD (2 + j).toNat none with
    | none => none
    | some row =>
      match row[neighborX.toNat]? with
      | none => none
      | some neighbor =>
        if neighbor = 255 then some acc
        else some (acc.1 + weight i j, acc.2 + weight i j * neighbor)

/-- The values of both loop variables of lines 291-292, in loop order. -/
def offsetRange : List Int := [-2, -1, 0, 1, 2]

/-- Lines 292-307: the inner loop over `j` for one `i`. -/
def stencilColumn (W H : Nat) (rows : List (Option (List Nat))) (x y : Nat)
    (i : Int) (acc : Nat × Nat) : Option (Nat × Nat) :=
  offsetRange.foldlM (fun a j => neighborStep W H rows x y a i j) acc

/-- Lines 289-308: the stencil, returning `(totalWeight, neighborTotal)`. -/
def stencil (W H : Nat) (rows : List (Option (List Nat))) (x y : Nat) : Option (Nat × Nat) :=
  offsetRange.foldlM (fun a i => stencilColumn W H rows x y i a) (0, 0)

/-- Lines 285-320, the body of the column loop at column `x` of row `y`: the
pixel stored into `outputBuffer[x]` and the counters afterwards.  The quotient
of line 310 is the `float` quotient of two integers, the divisor at most 60 and
the quotient at most 254 on byte rasters: it is an integer or at least `1 / 60`
below the next one, far more than the rounding error, so its conversion to
`uint8_t` is the integer quotient. -/
def pixelBody (W H MW : Nat) (rows : List (Option (List Nat))) (maskRow : List Nat)
    (y x : Nat) (c : PassResult) : Option (Nat × PassResult) :=
  match rows.getD 2 none with
  | none => none
  | some centre =>
    match centre[x]? with
    | none => none
    | some pixel =>
      match maskRow[x / (W / MW)]? with
      | none => none
      | some m =>
        if m > 128 then
          if pixel = 255 then
            match stencil W H rows x y with
            | none => none
            | some (totalWeight, neighborTotal) =>
              if totalWeight > 11 then
                some (neighborTotal / totalWeight % 256,
                      { c with fixedPixels := c.fixedPixels + 1 })
              else
                some (pixel, { c with unfixablePixels := c.unfixablePixels + 1 })
          else some (pixel, c)
        else some (pixel, { c with waterPixels := c.waterPixels + 1 })

/-- Lines 284-321: columns `0 .. n-1` of row `y`, from counters `c`: the filled
part of `outputBuffer` and the counters. -/
def fillColumns (W H MW : Nat) (rows : List (Option (List Nat))) (maskRow : List Nat)
    (y : Nat) : Nat → PassResult → Option (List Nat × PassResult)
  | 0, c => some ([], c)
  | n + 1, c =>
    match fillColumns W H MW rows maskRow y n c with
    | none => none
    | some (outputBuffer, c1) =>
      match pixelBody W H MW rows maskRow y n c1 with
      | none => none
      | some (pixel, c2) => some (outputBuffer ++ [pixel], c2)

/-- Line 249: the byte offset of the mask row of image row `y`, an
`unsigned int`. -/
def maskOffset (W MW crop y : Nat) : Nat :=
  (y / (W / MW) * MW + crop) % 2 ^ 32

/-- Lines 248-259: the mask row read for image row `y`, `MW` bytes from
`maskOffset`.  A read that reaches the end of the mask file is the `feof`
exit. -/
def readMaskRow (W MW crop : Nat) (maskFile : List Nat) (y : Nat) : Option (List Nat) :=
  let maskRow := (maskFile.drop (maskOffset W MW crop y)).take MW
  if maskRow.length = MW then some maskRow else none

/-- Lines 221-236: the window after the first two rows are read. -/
def initWindow (W : Nat) (inputFile : List (List Nat)) :
    Option (List (Option (List Nat)) × List (List Nat)) :=
  match readRow W inputFile with
  | none => none
  | some (row3, rest3) =>
    match readRow W rest3 with
    | none => none
    | some (row4, rest4) => some ([none, none, none, some row3, some row4], rest4)

/-- Lines 261-282: the four newest pointers move down one slot (slot 4 keeps
its pointer) and, when `y < H - 2`, the next row is read into slot 4.  Two
rows have been read before the loop, so `2 ≤ H` whenever this runs. -/
def advanceWindow (W H y : Nat) (rows : List (Option (List Nat))) (inputFile : List (List Nat)) :
    Option (List (Option (List Nat)) × List (List Nat)) :=
  let shifted := [rows.getD 1 none, rows.getD 2 none, rows.getD 3 none, rows.getD 4 none,
                  rows.getD 4 none]
  if y < H - 2 then
    match readRow W inputFile with
    | none => none
    | some (row, rest) => some (shifted.set 4 (some row), rest)
  else some (shifted, inputFile)

/-- The variables that live across iterations of the row loop of line 242. -/
structure LoopState where
  rows : List (Option (List Nat))
  inputFile : List (List Nat)
  outputFile : List (List Nat)
  counters : PassResult

/-- Lines 243-327, the body of the row loop for row `y`. -/
def rowBody (W H MW crop : Nat) (maskFile : List Nat) (y : Nat) (s : LoopState) :
    Option LoopState :=
  match readMaskRow W MW crop maskFile y with
  | none => none
  | some maskRow =>
    match advanceWindow W H y s.rows s.inputFile with
    | none => none
    | some (rows, rest) =>
      match fillColumns W H MW rows maskRow y W s.counters with
      | none => none
      | some (outputBuffer, counters) =>
        some { rows := rows, inputFile := rest,
               outputFile := s.outputFile ++ [outputBuffer], counters := counters }

/-- Lines 221-328: the state after rows `0 .. n-1` have been written. -/
def fillRows (W H MW crop : Nat) (body : List (List Nat)) (maskFile : List Nat) :
    Nat → Option LoopState
  | 0 =>
    match initWindow W body with
    | none => none
    | some (rows, rest) =>
      some { rows := rows, inputFile := rest, outputFile := [],
             counters := { fixedPixels := 0, unfixablePixels := 0, waterPixels := 0 } }
  | n + 1 =>
    match fillRows W H MW crop body maskFile n with
    | none => none
    | some s => rowBody W H MW crop maskFile n s

/-- Function `fillMissingPixels(pass)`, lines 174-335, on the body of the input raster
(the header is skipped at line 202) and the mask file: the body of the output
raster (its header is `setHeader`, line 214) and the counters printed at
line 334. -/
def fillMissingPixels (W H MW crop : Nat) (body : List (List Nat)) (maskFile : List Nat) :
    Option (List (List Nat) × PassResult) :=
  match fillRows W H MW crop body maskFile H with
  | none => none
  | some s => some (s.outputFile, s.counters)

/-- The run of `fillMissingPixels` up to the body of the column loop at `(x, y)`:
the counters before that iteration, the pixel it stores and the counters after. -/
def pixelTrace (W H MW crop : Nat) (body : List (List Nat)) (maskFile : List Nat)
    (x y : Nat) : Option (PassResult × Nat × PassResult) :=
  match fillRows W H MW crop body maskFile y with
  | none => none
  | some s =>
    match readMaskRow W MW crop maskFile y with
    | none => none
    | some maskRow =>
      match advanceWindow W H y s.rows s.inputFile with
      | none => none
      | some (rows, _) =>
        match fillColumns W H MW rows maskRow y x s.counters with
        | none => none
        | some (_, before) =>
          match pixelBody W H MW rows maskRow y x before with
          | none => none
          | some (pixel, after) => some (before, pixel, after)

/-- Lines 349-351 of `main`: `passes` chained passes, pass `i` reading the file
written by pass `i - 1`. -/
def runPasses (W H MW crop : Nat) (maskFile : List Nat) :
    Nat → List (List Nat) → Option (List (List Nat))
  | 0, body => some body
  | n + 1, body =>
    match runPasses W H MW crop maskFile n body with
    | none => none
    | some previous =>
      match fillMissingPixels W H MW crop previous maskFile with
      | none => none
      | some (next, _) => some next

/-! ## Reading a raster and a mask by coordinates -/

/-- The sample at column `x` of row `y`, when the raster has one. -/
def pixelAt? (body : List (List Nat)) (x y : Nat) : Option Nat :=
  match body[y]? with
  | none => none
  | some row => row[x]?

/-- The mask byte the pass consults for pixel `(x, y)`: entry `x / (W / MW)` of
the mask row read for row `y`. -/
def maskByte? (W MW crop : Nat) (maskFile : List Nat) (x y : Nat) : Option Nat :=
  match readMaskRow W MW crop maskFile y with
  | none => none
  | some maskRow => maskRow[x / (W / MW)]?

/-- Inputs the pass runs on without reaching an exit: at least two rows, `H`
rows of `W` bytes each, every mask row of the pass readable and every mask
column index inside the mask row; the divisor `W / MW` of lines 249 and 287 is
not zero and the coordinates fit the `int` variables of lines 293-294. -/
def WellFormed (W H MW crop : Nat) (body : List (List Nat)) (maskFile : List Nat) : Prop :=
  2 ≤ H ∧ body.length = H ∧ (∀ row ∈ body, row.length = W ∧ ∀ v ∈ row, v < 256) ∧
  (∀ y < H, (readMaskRow W MW crop maskFile y).isSome = true) ∧
  (∀ x < W, x / (W / MW) < MW) ∧ 0 < W / MW ∧ W < 2 ^ 31 ∧ H < 2 ^ 31

instance (W H MW crop : Nat) (body : List (List Nat)) (maskFile : List Nat) :
    Decidable (WellFormed W H MW crop body maskFile) := by
  unfold WellFormed; infer_instance

/-! ## Reference weighted average, following the specification -/

/-- The 25 offsets `(i, j)` of the 5x5 window. -/
def offsets : List (Int × Int) :=
  offsetRange.flatMap (fun i => offsetRange.map (fun j => (i, j)))

/-- The value of the neighbour at offset `o` of `(x, y)`, `255` outside the raster. -/
def neighborValue (body : List (List Nat)) (x y : Nat) (o : Int × Int) : Nat :=
  if (x : Int) + o.1 < 0 ∨ (y : Int) + o.2 < 0 then 255
  else (pixelAt? body ((x : Int) + o.1).toNat ((y : Int) + o.2).toNat).getD 255

/-- The offset `o` counts: its coordinate lies inside the raster and the
input value there is not the fill value. -/
def contributes (W H : Nat) (body : List (List Nat)) (x y : Nat) (o : Int × Int) : Bool :=
  decide (0 ≤ (x : Int) + o.1 ∧ (x : Int) + o.1 < W ∧ 0 ≤ (y : Int) + o.2 ∧ (y : Int) + o.2 < H
    ∧ neighborValue body x y o ≠ 255)

/-- Sum of `5 - (|i| + |j|)` over the contributing offsets. -/
def refTotalWeight (W H : Nat) (body : List (List Nat)) (x y : Nat) : Nat :=
  ((offsets.filter (contributes W H body x y)).map
    (fun o => 5 - (o.1.natAbs + o.2.natAbs))).sum

/-- Sum of `weight * neighbourValue` over the contributing offsets. -/
def refWeightedSum (W H : Nat) (body : List (List Nat)) (x y : Nat) : Nat :=
  ((offsets.filter (contributes W H body x y)).map
    (fun o => (5 - (o.1.natAbs + o.2.natAbs)) * neighborValue body x y o)).sum

/-! ## The pass read on the input raster -/

/-- Slot `k` of the window after `n` rows have been processed: null above the
raster, input row `n + k - 3` inside it, the last row again below it. -/
def slotAt (body : List (List Nat)) (H n k : Nat) : Option (List Nat) :=
  if n + k < 3 then none else body[min (n + k - 3) (H - 1)]?

/-- The window after `n` rows have been processed. -/
def windowAt (body : List (List Nat)) (H n : Nat) : List (Option (List Nat)) :=
  [slotAt body H n 0, slotAt body H n 1, slotAt body H n 2, slotAt body H n 3, slotAt body H n 4]

/-- One accumulation step of the stencil read on the input raster. -/
def accStep (W H : Nat) (body : List (List Nat)) (x y : Nat) (acc : Nat × Nat)
    (o : Int × Int) : Nat × Nat :=
  if contributes W H body x y o = true
  then (acc.1 + weight o.1 o.2, acc.2 + weight o.1 o.2 * neighborValue body x y o)
  else acc

/-- The pixel the pass stores at `(x, y)`, read on the input raster. -/
def refPixel (W H MW crop : Nat) (body : List (List Nat)) (maskFile : List Nat)
    (x y : Nat) : Nat :=
  if (maskByte? W MW crop maskFile x y).getD 0 > 128 then
    if (pixelAt? body x y).getD 0 = 255 then
      if refTotalWeight W H body x y > 11 then
        refWeightedSum W H body x y / refTotalWeight W H body x y % 256
      else (pixelAt? body x y).getD 0
    else (pixelAt? body x y).getD 0
  else (pixelAt? body x y).getD 0

/-- The counters after the column-loop body at `(x, y)` ran from counters `c`. -/
def refCount (W H MW crop : Nat) (body : List (List Nat)) (maskFile : List Nat)
    (x y : Nat) (c : PassResult) : PassResult :=
  if (maskByte? W MW crop maskFile x y).getD 0 > 128 then
    if (pixelAt? body x y).getD 0 = 255 then
      if refTotalWeight W H body x y > 11 then { c with fixedPixels := c.fixedPixels + 1 }
      else { c with unfixablePixels := c.unfixablePixels + 1 }
    else c
  else { c with waterPixels := c.waterPixels + 1 }

/-- Row `y` of the output raster. -/
def refRow (W H MW crop : Nat) (body : List (List Nat)) (maskFile : List Nat) (y : Nat) :
    List Nat :=
  (List.range W).map (fun x => refPixel W H MW crop body maskFile x y)

/-- The counters after columns `0 .. n-1` of row `y`. -/
def refRowCount (W H MW crop : Nat) (body : List (List Nat)) (maskFile : List Nat) (y n : Nat)
    (c : PassResult) : PassResult :=
  (List.range n).foldl (fun c x => refCount W H MW crop body maskFile x y c) c

/-- The counters after rows `0 .. n-1`. -/
def refPassCount (W H MW crop : Nat) (body : List (List Nat)) (maskFile : List Nat) (n : Nat) :
    PassResult :=
  (List.range n).foldl (fun c y => refRowCount W H MW crop body maskFile y W c)
    { fixedPixels := 0, unfixablePixels := 0, waterPixels := 0 }

/-- The body of the output raster, read on the input raster. -/
def refBody (W H MW crop : Nat) (body : List (List Nat)) (maskFile : List Nat) (n : Nat) :
    List (List Nat) :=
  (List.range n).map (refRow W H MW crop body maskFile)

/-! ## Small rasters used to instantiate the theorems -/

/-- A 5x5 raster of value 100 with a fill pixel in the centre and one in the
corner `(0, 0)`. -/
def exampleBody : List (List Nat) :=
  [[255, 100, 100, 100, 100],
   [100, 100, 100, 100, 100],
   [100, 100, 255, 100, 100],
   [100, 100, 100, 100, 100],
   [100, 100, 100, 100, 100]]

/-- A 5x5 mask file (one mask byte per pixel): water at `(0, 0)`, land elsewhere. -/
def exampleMask : List Nat :=
  [0, 200, 200, 200, 200,
   200, 200, 200, 200, 200,
   200, 200, 200, 200, 200,
   200, 200, 200, 200, 200,
   200, 200, 200, 200, 200]

/-- An all-land 5x5 mask file. -/
def landMask : List Nat := List.replicate 25 200

/-- A fill raster whose centre has two neighbours of weight 4 and one of weight 3. -/
def weight11Body : List (List Nat) :=
  [[255, 255, 255, 255, 255],
   [255, 30, 10, 255, 255],
   [255, 20, 255, 255, 255],
   [255, 255, 255, 255, 255],
   [255, 255, 255, 255, 255]]

/-- A fill raster whose centre has three neighbours of weight 4. -/
def weight12Body : List (List Nat) :=
  [[255, 255, 255, 255, 255],
   [255, 255, 10, 255, 255],
   [255, 20, 255, 31, 255],
   [255, 255, 255, 255, 255],
   [255, 255, 255, 255, 255]]

/-- A 5x5 mask file with water at `(1, 2)`, left of the centre, land elsewhere. -/
def coastMask : List Nat :=
  [200, 200, 200, 200, 200,
   200, 200, 200, 200, 200,
   200, 0, 200, 200, 200,
   200, 200, 200, 200, 200,
   200, 200, 200, 200, 200]

/-- A raster with a fill pixel in the centre and value 0 at `(1, 2)`. -/
def coastBodyLow : List (List Nat) :=
  [[100, 100, 100, 100, 100],
   [100, 100, 100, 100, 100],
   [100, 0, 255, 100, 100],
   [100, 100, 100, 100, 100],
   [100, 100, 100, 100, 100]]

/-- The same raster with value 254 at `(1, 2)`. -/
def coastBodyHigh : List (List Nat) :=
  [[100, 100, 100, 100, 100],
   [100, 100, 100, 100, 100],
   [100, 254, 255, 100, 100],
   [100, 100, 100, 100, 100],
   [100, 100, 100, 100, 100]]

/-! ## Counting pixels -/

/-- Sum of `f x y` over the pixels of the first `n` rows of a raster of width `W`. -/
def gridSum (W n : Nat) (f : Nat → Nat → Nat) : Nat :=
  ((List.range n).map (fun y => ((List.range W).map (fun x => f x y)).sum)).sum

/-- The number of pixels `(x, y)`, `x < W`, `y < H`, that satisfy `p`. -/
def countPixels (W H : Nat) (p : Nat → Nat → Bool) : Nat :=
  gridSum W H (fun x y => if p x y = true then 1 else 0)

/-- The mask classifies `(x, y)` as land: its mask byte exceeds 128. -/
def isLand (W MW crop : Nat) (maskFile : List Nat) (x y : Nat) : Bool :=
  decide ((maskByte? W MW crop maskFile x y).getD 0 > 128)

/-- The raster holds the fill value 255 at `(x, y)`. -/
def isFill (body : List (List Nat)) (x y : Nat) : Bool :=
  decide (pixelAt? body x y = some 255)

/-- The two rasters hold different values at `(x, y)`. -/
def differsAt (bodyA bodyB : List (List Nat)) (x y : Nat) : Bool :=
  decide (pixelAt? bodyA x y ≠ pixelAt? bodyB x y)

/-- The pass repairs `(x, y)`: a land pixel holding 255 whose reference total
weight exceeds 11. -/
def fixedAt (W H MW crop : Nat) (body : List (List Nat)) (maskFile : List Nat)
    (x y : Nat) : Bool :=
  isLand W MW crop maskFile x y && isFill body x y && decide (11 < refTotalWeight W H body x y)

/-- The pass leaves `(x, y)` unrepaired: a land pixel holding 255 whose
reference total weight is at most 11. -/
def unfixableAt (W H MW crop : Nat) (body : List (List Nat)) (maskFile : List Nat)
    (x y : Nat) : Bool :=
  isLand W MW crop maskFile x y && isFill body x y && !decide (11 < refTotalWeight W H body x y)

/-- The 8x8 raster of the end-to-end scenario: value 100 everywhere except
the fill pixel `(3, 3)`. -/
def scenarioBody : List (List Nat) :=
  [[100, 100, 100, 100, 100, 100, 100, 100],
   [100, 100, 100, 100, 100, 100, 100, 100],
   [100, 100, 100, 100, 100, 100, 100, 100],
   [100, 100, 100, 255, 100, 100, 100, 100],
   [100, 100, 100, 100, 100, 100, 100, 100],
   [100, 100, 100, 100, 100, 100, 100, 100],
   [100, 100, 100, 100, 100, 100, 100, 100],
   [100, 100, 100, 100, 100, 100, 100, 100]]

/-- An all-land 2x2 mask file, one mask byte for every 4x4 block of pixels. -/
def scenarioMask : List Nat := [200, 200, 200, 200]

/-- An 8x8 raster with two adjacent fill pixels, `(3, 3)` and `(4, 3)`. -/
def twoGapBody : List (List Nat) :=
  [[100, 100, 100, 100, 100, 100, 100, 100],
   [100, 100, 100, 100, 100, 100, 100, 100],
   [100, 100, 40, 50, 60, 70, 100, 100],
   [10, 20, 30, 255, 255, 60, 70, 80],
   [100, 100, 40, 50, 60, 70, 100, 100],
   [100, 100, 100, 100, 100, 100, 100, 100],
   [100, 100, 100, 100, 100, 100, 100, 100],
   [100, 100, 100, 100, 100, 100, 100, 100]]

/-- The same raster changed at `(0, 0)` and `(1, 3)`, outside the window of
`(4, 3)`. -/
def twoGapBodyFar : List (List Nat) :=
  [[42, 100, 100, 100, 100, 100, 100, 100],
   [100, 100, 100, 100, 100, 100, 100, 100],
   [100, 100, 40, 50, 60, 70, 100, 100],
   [10, 255, 30, 255, 255, 60, 70, 80],
   [100, 100, 40, 50, 60, 70, 100, 100],
   [100, 100, 100, 100, 100, 100, 100, 100],
   [100, 100, 100, 100, 100, 100, 100, 100],
   [100, 100, 100, 100, 100, 100, 100, 100]]

/-! ## Entry point (lines 337-354) -/

/-- The calls `main` makes into the rest of the program. -/
inductive Call where
  | findPixelRange : Call
  | reduceBitDepth : Call
  | fillMissingPixels (pass : Nat) : Call
deriving DecidableEq, Repr

/-- The two messages of `main`: the usage line of line 339 and the complaint of
line 343. -/
inductive Message where
  | usage : Message
  | notPositive : Message
deriving DecidableEq, Repr

/-- What a run of `main` has printed and called, and the status it ended with
(`none` while the loop of line 349 is still running). -/
structure MainRun where
  printed : List Message
  calls : List Call
  status : Option Nat
deriving DecidableEq, Repr

/-- Lines 349-351: the loop over `i`, an `unsigned int`, from the value `i`,
observed for at most `steps` iterations: the calls made and whether the loop
has ended. -/
def passLoop (passes : Nat) : Nat → Nat → List Call × Bool
  | 0, i => ([], decide (¬ i ≤ passes))
  | steps + 1, i =>
    if i ≤ passes then
      let rest := passLoop passes steps ((i + 1) % 2 ^ 32)
      (Call.fillMissingPixels i :: rest.1, rest.2)
    else ([], true)

/-- Function `main`, lines 337-354.  `parsed` is the `long` that
`strtol(argv[1], NULL, 10)` returns, `none` when `argv[1]` is the null pointer
(`argc = 1`), for which the call has no defined result; line 341 converts it
to `unsigned int`.  The callees are taken to return. -/
def main (argc : Nat) (parsed : Option Int) (steps : Nat) : Option MainRun :=
  let printed := if argc ≠ 2 then [Message.usage] else []
  match parsed with
  | none => none
  | some value =>
    let passes := (value % 2 ^ 32).toNat
    if passes ≤ 0 then
      some { printed := printed ++ [Message.notPositive], calls := [], status := some 1 }
    else
      let loop := passLoop passes steps 1
      some { printed := printed,
             calls := [Call.findPixelRange, Call.reduceBitDepth] ++ loop.1,
             status := if loop.2 = true then some 0 else none }

/-! ## Header and reduction: lemmas -/

theorem copyBytes_objectBytes (host : Bool) (v : Nat) :
    copyBytes host (objectBytes host 4 v) 4
      = [v / 256 ^ 3 % 256, v / 256 ^ 2 % 256, v / 256 % 256, v % 256] := by
  cases host <;> simp [copyBytes, objectBytes, List.range, List.range.loop]

theorem writeHeader_layout (host : Bool) (a w h b m s : Nat) :
    writeHeader host a w h b m s =
      [a, w / 256 ^ 3 % 256, w / 256 ^ 2 % 256, w / 256 % 256, w % 256,
       h / 256 ^ 3 % 256, h / 256 ^ 2 % 256, h / 256 % 256, h % 256, b,
       m / 256 ^ 3 % 256, m / 256 ^ 2 % 256, m / 256 % 256, m % 256,
       s / 256 ^ 3 % 256, s / 256 ^ 2 % 256, s / 256 % 256, s % 256,
       0, 0, 0, 0, 0, 0, 0, 0, 0, 0, 0, 0, 0, 0] := by
  simp only [writeHeader, copyBytes_objectBytes]
  simp [writeAt, HEADER_SIZE, List.replicate]

theorem scanRows_eq (W : Nat) : ∀ (n : Nat) (file : List (List Nat)) (acc : Nat × Nat),
    file.length = n → (∀ row ∈ file, row.length = W) →
    scanRows W n file acc = some (file.flatten.foldl scanPixel acc)
  | 0, file, acc, hlen, _ => by
    have : file = [] := List.length_eq_zero.mp hlen
    subst this
    simp [scanRows]
  | n + 1, [], acc, hlen, _ => by simp at hlen
  | n + 1, row :: rest, acc, hlen, hrow => by
    have h1 : row.length = W := hrow row (List.mem_cons_self _ _)
    have h2 : rest.length = n := by simpa using hlen
    have h3 : ∀ r ∈ rest, r.length = W := fun r hr => hrow r (List.mem_cons_of_mem _ hr)
    simp [scanRows, readRow, h1, scanRows_eq W n rest _ h2 h3, List.foldl_append]

theorem toUint8_natCast_div (a b : Nat) : toUint8 ((a : ℚ) / (b : ℚ)) = a / b % 256 := by
  have h0 : (0 : ℚ) ≤ (a : ℚ) / (b : ℚ) := by positivity
  simp only [toUint8, h0, if_true, Rat.floor_natCast_div_natCast]
  have : ((a : ℤ) / (b : ℤ)) % 256 = ((a / b % 256 : ℕ) : ℤ) := by push_cast; rfl
  rw [this, Int.toNat_ofNat]

/-- The reduced sample of a non-fill sample at or above the minimum, in
integer arithmetic. -/
theorem reducedPixel_eq (mn mx v : Nat) (hm : mn ≤ mx) (hv : mn ≤ v) (hv2 : v ≤ 65528) :
    reducedPixel mn ((((mx : ℤ) - (mn : ℤ) + 1 : ℤ) : ℚ) / 256) v
      = 256 * (v - mn) / (mx - mn + 1) % 256 := by
  have hv3 : ¬ v > 65528 := by omega
  simp only [reducedPixel, hv3, if_false]
  have h1 : ((((v : ℤ) - (mn : ℤ) : ℤ) : ℚ)) / ((((mx : ℤ) - (mn : ℤ) + 1 : ℤ) : ℚ) / 256)
      = ((256 * (v - mn) : Nat) : ℚ) / ((mx - mn + 1 : Nat) : ℚ) := by
    have e1 : (((mx : ℤ) - (mn : ℤ) + 1 : ℤ) : ℚ) = ((mx - mn + 1 : Nat) : ℚ) := by
      push_cast [Nat.cast_sub hm]
      ring
    have e2 : (((v : ℤ) - (mn : ℤ) : ℤ) : ℚ) = ((v - mn : Nat) : ℚ) := by
      push_cast [Nat.cast_sub hv]
      ring
    rw [e1, e2]
    have hne : ((mx - mn + 1 : Nat) : ℚ) ≠ 0 := by positivity
    field_simp
    ring
  rw [h1, toUint8_natCast_div]

theorem reducedPixel_in_range (mn mx v : Nat) (hv : mn ≤ v) (hv2 : v ≤ mx) (hmx : mx ≤ 65528) :
    reducedPixel mn ((((mx : ℤ) - (mn : ℤ) + 1 : ℤ) : ℚ) / 256) v
      = 256 * (v - mn) / (mx - mn + 1) := by
  rw [reducedPixel_eq mn mx v (by omega) hv (by omega)]
  apply Nat.mod_eq_of_lt
  rw [Nat.div_lt_iff_lt_mul (by omega)]
  have : v - mn < mx - mn + 1 := by omega
  omega

/-- Whenever the range spans at least 256 values, the maximum itself is
reduced to 255. -/
theorem reducedPixel_max (mn mx : Nat) (hm : mn + 255 ≤ mx) (hmx : mx ≤ 65528) :
    reducedPixel mn ((((mx : ℤ) - (mn : ℤ) + 1 : ℤ) : ℚ) / 256) mx = 255 := by
  rw [reducedPixel_in_range mn mx mx (by omega) (le_refl _) hmx]
  have h1 : 256 * (mx - mn) / (mx - mn + 1) < 256 := by
    rw [Nat.div_lt_iff_lt_mul (by omega)]
    omega
  have h2 : 255 ≤ 256 * (mx - mn) / (mx - mn + 1) := by
    rw [Nat.le_div_iff_mul_le (by omega)]
    omega
  omega

theorem foldl_scanPixel (l : List Nat) : ∀ (acc : Nat × Nat),
    ((l.foldl scanPixel acc).1 = acc.1 ∨
        ((l.foldl scanPixel acc).1 ∈ l ∧ (l.foldl scanPixel acc).1 ≤ 65528)) ∧
    (l.foldl scanPixel acc).1 ≤ acc.1 ∧
    (∀ v ∈ l, v ≤ 65528 → (l.foldl scanPixel acc).1 ≤ v) ∧
    ((l.foldl scanPixel acc).2 = acc.2 ∨
        ((l.foldl scanPixel acc).2 ∈ l ∧ (l.foldl scanPixel acc).2 ≤ 65528)) ∧
    acc.2 ≤ (l.foldl scanPixel acc).2 ∧
    (∀ v ∈ l, v ≤ 65528 → v ≤ (l.foldl scanPixel acc).2) := by
  induction l with
  | nil => intro acc; simp
  | cons p l ih =>
    intro acc
    obtain ⟨a1, a2, a3, b1, b2, b3⟩ := ih (scanPixel acc p)
    simp only [List.foldl_cons, List.mem_cons, forall_eq_or_imp]
    by_cases hp : p > 65528
    · have hs : scanPixel acc p = acc := by simp [scanPixel, hp]
      rw [hs] at a1 a2 a3 b1 b2 b3 ⊢
      refine ⟨?_, a2, ⟨fun h => absurd h (by omega), a3⟩, ?_, b2, ⟨fun h => absurd h (by omega), b3⟩⟩
      · rcases a1 with h | ⟨h, h2⟩
        · exact Or.inl h
        · exact Or.inr ⟨Or.inr h, h2⟩
      · rcases b1 with h | ⟨h, h2⟩
        · exact Or.inl h
        · exact Or.inr ⟨Or.inr h, h2⟩
    · have hs1 : (scanPixel acc p).1 = if p < acc.1 then p else acc.1 := by simp [scanPixel, hp]
      have hs2 : (scanPixel acc p).2 = if p > acc.2 then p else acc.2 := by simp [scanPixel, hp]
      rw [hs1] at a1 a2
      rw [hs2] at b1 b2
      refine ⟨?_, ?_, ⟨fun _ => ?_, a3⟩, ?_, ?_, ⟨fun _ => ?_, b3⟩⟩
      · rcases a1 with h | ⟨h, h2⟩
        · split at h
          · exact Or.inr ⟨Or.inl h, by omega⟩
          · exact Or.inl h
        · exact Or.inr ⟨Or.inr h, h2⟩
      · split at a2 <;> omega
      · split at a2 <;> omega
      · rcases b1 with h | ⟨h, h2⟩
        · split at h
          · exact Or.inr ⟨Or.inl h, by omega⟩
          · exact Or.inl h
        · exact Or.inr ⟨Or.inr h, h2⟩
      · split at b2 <;> omega
      · split at b2 <;> omega

/-! ## Gap-fill pass: lemmas -/

theorem slotAt_shift (body : List (List Nat)) (H n k : Nat) :
    slotAt body H n (k + 1) = slotAt body H (n + 1) k := by
  unfold slotAt
  have e : n + (k + 1) = n + 1 + k := by omega
  rw [e]

theorem windowAt_getD (body : List (List Nat)) (H n k : Nat) (hk : k < 5) :
    (windowAt body H n).getD k none = slotAt body H n k := by
  interval_cases k <;> rfl

theorem readRow_drop (W : Nat) (body : List (List Nat)) (k : Nat)
    (hrow : ∀ row ∈ body, row.length = W) (hk : k < body.length) :
    readRow W (body.drop k) = some (body[k], body.drop (k + 1)) := by
  rw [List.drop_eq_getElem_cons hk]
  simp [readRow, hrow _ (List.getElem_mem hk)]

theorem initWindow_eq (W H : Nat) (body : List (List Nat)) (hH : 2 ≤ H)
    (hlen : body.length = H) (hrow : ∀ row ∈ body, row.length = W) :
    initWindow W body = some (windowAt body H 0, body.drop 2) := by
  have h0 := readRow_drop W body 0 hrow (by omega)
  have h1 := readRow_drop W body 1 hrow (by omega)
  simp only [List.drop_zero] at h0
  simp only [initWindow, h0, h1]
  have e0 : min 0 (H - 1) = 0 := by omega
  have e1 : min 1 (H - 1) = 1 := by omega
  have s3 : slotAt body H 0 3 = some body[0] := by
    simp only [slotAt]
    rw [if_neg (by omega)]
    simp only [Nat.zero_add, Nat.sub_self, e0]
    exact List.getElem?_eq_getElem _
  have s4 : slotAt body H 0 4 = some body[1] := by
    simp only [slotAt]
    rw [if_neg (by omega)]
    simp only [Nat.zero_add, e1]
    exact List.getElem?_eq_getElem _
  simp only [windowAt, s3, s4]
  rfl

theorem advanceWindow_eq (W H : Nat) (body : List (List Nat)) (y : Nat) (hy : y < H)
    (hlen : body.length = H) (hrow : ∀ row ∈ body, row.length = W) :
    advanceWindow W H y (windowAt body H y) (body.drop (y + 2))
      = some (windowAt body H (y + 1), body.drop (y + 3)) := by
  simp only [advanceWindow, windowAt_getD body H y _ (by decide : 1 < 5),
    windowAt_getD body H y _ (by decide : 2 < 5), windowAt_getD body H y _ (by decide : 3 < 5),
    windowAt_getD body H y _ (by decide : 4 < 5), slotAt_shift body H y 0,
    slotAt_shift body H y 1, slotAt_shift body H y 2, slotAt_shift body H y 3]
  by_cases hr : y < H - 2
  · have h2 := readRow_drop W body (y + 2) hrow (by omega)
    simp only [hr, if_true, h2]
    have s4 : slotAt body H (y + 1) 4 = some body[y + 2] := by
      simp only [slotAt]
      rw [if_neg (by omega)]
      have e : min (y + 1 + 4 - 3) (H - 1) = y + 2 := by omega
      rw [e]
      exact List.getElem?_eq_getElem _
    simp only [windowAt, s4]
    rfl
  · simp only [hr, if_false]
    have e3 : body.drop (y + 2) = [] := List.drop_eq_nil_of_le (by omega)
    have e4 : body.drop (y + 3) = [] := List.drop_eq_nil_of_le (by omega)
    have s4 : slotAt body H (y + 1) 3 = slotAt body H (y + 1) 4 := by
      simp only [slotAt]
      rw [if_neg (by omega), if_neg (by omega)]
      have e : min (y + 1 + 3 - 3) (H - 1) = min (y + 1 + 4 - 3) (H - 1) := by omega
      rw [e]
    simp only [windowAt, e3, e4, s4]

theorem windowAt_row (body : List (List Nat)) (H y : Nat) (j : Int) (ny : Nat)
    (hj1 : -2 ≤ j) (hj2 : j ≤ 2) (hny : (ny : Int) = (y : Int) + j) (hlt : ny < H) :
    (windowAt body H (y + 1)).getD (2 + j).toNat none = body[ny]? := by
  have hk : (2 + j).toNat < 5 := by omega
  rw [windowAt_getD _ _ _ _ hk]
  unfold slotAt
  rw [if_neg (by omega)]
  have e : min (y + 1 + (2 + j).toNat - 3) (H - 1) = ny := by omega
  rw [e]

theorem neighborStep_eq (W H : Nat) (body : List (List Nat)) (x y : Nat) (acc : Nat × Nat)
    (i j : Int) (hj1 : -2 ≤ j) (hj2 : j ≤ 2)
    (hlen : body.length = H) (hrow : ∀ row ∈ body, row.length = W) :
    neighborStep W H (windowAt body H (y + 1)) x y acc i j =
      some (if contributes W H body x y (i, j) = true
            then (acc.1 + weight i j, acc.2 + weight i j * neighborValue body x y (i, j))
            else acc) := by
  unfold neighborStep
  by_cases hb : (x : Int) + i < 0 ∨ (x : Int) + i ≥ (W : Int) ∨ (y : Int) + j < 0
      ∨ (y : Int) + j ≥ (H : Int)
  · have hc : contributes W H body x y (i, j) = false := by
      simp only [contributes, decide_eq_false_iff_not]
      omega
    simp only [hb, if_true, hc, Bool.false_eq_true, if_false]
  · simp only [hb, if_false]
    have hx0 : 0 ≤ (x : Int) + i := by omega
    have hy0 : 0 ≤ (y : Int) + j := by omega
    obtain ⟨nx, hnx⟩ := Int.eq_ofNat_of_zero_le hx0
    obtain ⟨ny, hny⟩ := Int.eq_ofNat_of_zero_le hy0
    have hnyH : ny < H := by omega
    have hnxW : nx < W := by omega
    have hnyL : ny < body.length := by omega
    have hrl : (body[ny]).length = W := hrow _ (List.getElem_mem hnyL)
    have hnxL : nx < (body[ny]).length := by omega
    rw [windowAt_row body H y j ny hj1 hj2 hny.symm hnyH, List.getElem?_eq_getElem hnyL]
    simp only [hnx, Int.toNat_ofNat, List.getElem?_eq_getElem hnxL]
    have hv : neighborValue body x y (i, j) = (body[ny])[nx] := by
      simp only [neighborValue, hnx, hny, Int.toNat_ofNat, pixelAt?,
        List.getElem?_eq_getElem hnyL, List.getElem?_eq_getElem hnxL, Option.getD_some]
      rw [if_neg (by omega)]
    by_cases h255 : (body[ny])[nx] = 255
    · have hc : contributes W H body x y (i, j) = false := by
        simp only [contributes, decide_eq_false_iff_not, hv, h255]
        omega
      simp only [h255, if_true, hc, Bool.false_eq_true, if_false]
    · have hc : contributes W H body x y (i, j) = true := by
        simp only [contributes, decide_eq_true_eq, hv]
        refine ⟨by omega, by omega, by omega, by omega, h255⟩
      simp only [h255, if_false, hc, if_true, hv]

theorem foldlM_eq_some {α β : Type} (f : β → α → Option β) (g : β → α → β) :
    ∀ (l : List α) (b : β), (∀ a ∈ l, ∀ c, f c a = some (g c a)) →
      l.foldlM f b = some (l.foldl g b)
  | [], b, _ => rfl
  | a :: l, b, h => by
    rw [List.foldlM_cons, h a (List.mem_cons_self _ _) b]
    exact foldlM_eq_some f g l (g b a) (fun a2 h2 c => h a2 (List.mem_cons_of_mem _ h2) c)

theorem offsetRange_bounds (j : Int) (hj : j ∈ offsetRange) : -2 ≤ j ∧ j ≤ 2 := by
  simp only [offsetRange, List.mem_cons, List.mem_singleton, List.not_mem_nil, or_false] at hj
  omega

theorem foldl_accStep (W H : Nat) (body : List (List Nat)) (x y : Nat) :
    ∀ (l : List (Int × Int)) (acc : Nat × Nat),
      l.foldl (accStep W H body x y) acc =
        (acc.1 + ((l.filter (contributes W H body x y)).map
            (fun o => 5 - (o.1.natAbs + o.2.natAbs))).sum,
         acc.2 + ((l.filter (contributes W H body x y)).map
            (fun o => (5 - (o.1.natAbs + o.2.natAbs)) * neighborValue body x y o)).sum)
  | [], acc => by simp
  | o :: l, acc => by
    rw [List.foldl_cons, foldl_accStep W H body x y l]
    by_cases hc : contributes W H body x y o = true
    · simp only [accStep, hc, if_true, List.filter_cons_of_pos, List.map_cons, List.sum_cons,
        weight]
      ext <;> simp only <;> omega
    · simp only [accStep, hc, if_false, List.filter_cons_of_neg, Bool.false_eq_true,
        not_false_eq_true]

theorem stencil_eq (W H : Nat) (body : List (List Nat)) (x y : Nat)
    (hlen : body.length = H) (hrow : ∀ row ∈ body, row.length = W) :
    stencil W H (windowAt body H (y + 1)) x y
      = some (refTotalWeight W H body x y, refWeightedSum W H body x y) := by
  have hcol : ∀ (i : Int) (acc : Nat × Nat),
      stencilColumn W H (windowAt body H (y + 1)) x y i acc
        = some (offsetRange.foldl (fun a j => accStep W H body x y a (i, j)) acc) := by
    intro i acc
    unfold stencilColumn
    apply foldlM_eq_some
    intro j hj c
    obtain ⟨h1, h2⟩ := offsetRange_bounds j hj
    rw [neighborStep_eq W H body x y c i j h1 h2 hlen hrow]
    rfl
  have hst : stencil W H (windowAt body H (y + 1)) x y
      = some (offsets.foldl (accStep W H body x y) (0, 0)) := by
    unfold stencil
    rw [foldlM_eq_some _ (fun a i => offsetRange.foldl (fun a j => accStep W H body x y a (i, j)) a)
      offsetRange (0, 0) (fun i _ c => hcol i c)]
    rfl
  rw [hst, foldl_accStep]
  simp only [refTotalWeight, refWeightedSum, Nat.zero_add]

theorem pixelAt?_eq (W H MW crop : Nat) (body : List (List Nat)) (maskFile : List Nat)
    (hwf : WellFormed W H MW crop body maskFile) (x y : Nat) (hx : x < W) (hy : y < H) :
    ∃ v, pixelAt? body x y = some v ∧ v < 256 ∧ body[y]? = some (body.getD y []) ∧
      (body.getD y [])[x]? = some v := by
  obtain ⟨_, hlen, hrow, _, _⟩ := hwf
  have hyL : y < body.length := by omega
  have hr := hrow _ (List.getElem_mem hyL)
  have hxL : x < (body[y]).length := by omega
  refine ⟨(body[y])[x], ?_, hr.2 _ (List.getElem_mem hxL), ?_, ?_⟩
  · simp only [pixelAt?, List.getElem?_eq_getElem hyL, List.getElem?_eq_getElem hxL]
  · simp only [List.getElem?_eq_getElem hyL, List.getD_eq_getElem _ _ hyL]
  · simp only [List.getD_eq_getElem _ _ hyL, List.getElem?_eq_getElem hxL]

theorem maskByte?_eq (W H MW crop : Nat) (body : List (List Nat)) (maskFile : List Nat)
    (hwf : WellFormed W H MW crop body maskFile) (x y : Nat) (hx : x < W) (hy : y < H) :
    ∃ maskRow m, readMaskRow W MW crop maskFile y = some maskRow ∧
      maskRow[x / (W / MW)]? = some m ∧ maskByte? W MW crop maskFile x y = some m := by
  obtain ⟨_, _, _, hmask, hcol, _⟩ := hwf
  obtain ⟨maskRow, hmr⟩ := Option.isSome_iff_exists.mp (hmask y hy)
  have hl : maskRow.length = MW := by
    unfold readMaskRow at hmr
    simp only at hmr
    split at hmr
    · rename_i h
      cases hmr
      exact h
    · cases hmr
  have hi : x / (W / MW) < maskRow.length := by
    rw [hl]
    exact hcol x hx
  exact ⟨maskRow, maskRow[x / (W / MW)], hmr, List.getElem?_eq_getElem hi, by
    simp only [maskByte?, hmr, List.getElem?_eq_getElem hi]⟩

theorem pixelBody_eq (W H MW crop : Nat) (body : List (List Nat)) (maskFile : List Nat)
    (hwf : WellFormed W H MW crop body maskFile) (x y : Nat) (hx : x < W) (hy : y < H)
    (maskRow : List Nat) (hmr : readMaskRow W MW crop maskFile y = some maskRow)
    (c : PassResult) :
    pixelBody W H MW (windowAt body H (y + 1)) maskRow y x c
      = some (refPixel W H MW crop body maskFile x y,
              refCount W H MW crop body maskFile x y c) := by
  obtain ⟨v, hv, _, hrowy, hvx⟩ := pixelAt?_eq W H MW crop body maskFile hwf x y hx hy
  obtain ⟨maskRow2, m, hmr2, hm, hmb⟩ := maskByte?_eq W H MW crop body maskFile hwf x y hx hy
  rw [hmr] at hmr2
  cases hmr2
  obtain ⟨_, hlen, hrow, _, _⟩ := hwf
  have hwin : (windowAt body H (y + 1)).getD 2 none = body[y]? :=
    windowAt_row body H y 0 y (by decide) (by decide) (by simp) hy
  unfold pixelBody
  rw [hwin, hrowy]
  simp only [hvx, hm, stencil_eq W H body x y hlen (fun r hr => (hrow r hr).1)]
  simp only [refPixel, refCount, hv, hmb, Option.getD_some]
  by_cases h1 : m > 128 <;> by_cases h2 : v = 255 <;>
    by_cases h3 : refTotalWeight W H body x y > 11 <;> simp [h1, h2, h3]

theorem fillColumns_eq (W H MW crop : Nat) (body : List (List Nat)) (maskFile : List Nat)
    (hwf : WellFormed W H MW crop body maskFile) (y : Nat) (hy : y < H)
    (maskRow : List Nat) (hmr : readMaskRow W MW crop maskFile y = some maskRow)
    (c : PassResult) : ∀ (n : Nat), n ≤ W →
    fillColumns W H MW (windowAt body H (y + 1)) maskRow y n c
      = some ((List.range n).map (fun x => refPixel W H MW crop body maskFile x y),
              refRowCount W H MW crop body maskFile y n c)
  | 0, _ => rfl
  | n + 1, hn => by
    rw [fillColumns, fillColumns_eq W H MW crop body maskFile hwf y hy maskRow hmr c n (by omega)]
    simp only [pixelBody_eq W H MW crop body maskFile hwf n y (by omega) hy maskRow hmr]
    simp only [refRowCount, List.range_succ, List.map_append, List.map_cons, List.map_nil,
      List.foldl_append, List.foldl_cons, List.foldl_nil]

theorem fillRows_eq (W H MW crop : Nat) (body : List (List Nat)) (maskFile : List Nat)
    (hwf : WellFormed W H MW crop body maskFile) : ∀ (n : Nat), n ≤ H →
    fillRows W H MW crop body maskFile n
      = some { rows := windowAt body H n, inputFile := body.drop (n + 2),
               outputFile := refBody W H MW crop body maskFile n,
               counters := refPassCount W H MW crop body maskFile n }
  | 0, _ => by
    obtain ⟨hH, hlen, hrow, _, _⟩ := hwf
    simp only [fillRows, initWindow_eq W H body hH hlen (fun r hr => (hrow r hr).1)]
    rfl
  | n + 1, hn => by
    have hy : n < H := by omega
    obtain ⟨maskRow, hmr⟩ := Option.isSome_iff_exists.mp (hwf.2.2.2.1 n hy)
    have hlen := hwf.2.1
    have hrow : ∀ row ∈ body, row.length = W := fun r hr => (hwf.2.2.1 r hr).1
    rw [fillRows, fillRows_eq W H MW crop body maskFile hwf n (by omega)]
    simp only [rowBody, hmr, advanceWindow_eq W H body n hy hlen hrow,
      fillColumns_eq W H MW crop body maskFile hwf n hy maskRow hmr _ W (le_refl W)]
    simp only [refBody, refPassCount, refRow, List.range_succ, List.map_append, List.map_cons,
      List.map_nil, List.foldl_append, List.foldl_cons, List.foldl_nil]

theorem fillMissingPixels_eq (W H MW crop : Nat) (body : List (List Nat)) (maskFile : List Nat)
    (hwf : WellFormed W H MW crop body maskFile) :
    fillMissingPixels W H MW crop body maskFile
      = some (refBody W H MW crop body maskFile H, refPassCount W H MW crop body maskFile H) := by
  simp only [fillMissingPixels, fillRows_eq W H MW crop body maskFile hwf H (le_refl H)]

theorem pixelTrace_eq (W H MW crop : Nat) (body : List (List Nat)) (maskFile : List Nat)
    (hwf : WellFormed W H MW crop body maskFile) (x y : Nat) (hx : x < W) (hy : y < H) :
    pixelTrace W H MW crop body maskFile x y
      = some (refRowCount W H MW crop body maskFile y x
                (refPassCount W H MW crop body maskFile y),
              refPixel W H MW crop body maskFile x y,
              refCount W H MW crop body maskFile x y
                (refRowCount W H MW crop body maskFile y x
                  (refPassCount W H MW crop body maskFile y))) := by
  obtain ⟨maskRow, hmr⟩ := Option.isSome_iff_exists.mp (hwf.2.2.2.1 y hy)
  have hlen := hwf.2.1
  have hrow : ∀ row ∈ body, row.length = W := fun r hr => (hwf.2.2.1 r hr).1
  simp only [pixelTrace, fillRows_eq W H MW crop body maskFile hwf y (by omega), hmr,
    advanceWindow_eq W H body y hy hlen hrow,
    fillColumns_eq W H MW crop body maskFile hwf y hy maskRow hmr _ x (by omega),
    pixelBody_eq W H MW crop body maskFile hwf x y hx hy maskRow hmr]

theorem pixelAt?_refBody (W H MW crop : Nat) (body : List (List Nat)) (maskFile : List Nat)
    (x y : Nat) (hx : x < W) (hy : y < H) :
    pixelAt? (refBody W H MW crop body maskFile H) x y
      = some (refPixel W H MW crop body maskFile x y) := by
  simp [pixelAt?, refBody, refRow, List.getElem?_range, hx, hy]

theorem pixelAt?_bounds (W H MW crop : Nat) (body : List (List Nat)) (maskFile : List Nat)
    (hwf : WellFormed W H MW crop body maskFile) (x y v : Nat)
    (hv : pixelAt? body x y = some v) : x < W ∧ y < H ∧ v < 256 := by
  obtain ⟨_, hlen, hrow, _, _⟩ := hwf
  unfold pixelAt? at hv
  by_cases hy : y < body.length
  · rw [List.getElem?_eq_getElem hy] at hv
    simp only at hv
    have hr := hrow _ (List.getElem_mem hy)
    by_cases hx : x < (body[y]).length
    · rw [List.getElem?_eq_getElem hx] at hv
      cases hv
      exact ⟨by omega, by omega, hr.2 _ (List.getElem_mem hx)⟩
    · rw [List.getElem?_eq_none (by omega)] at hv
      cases hv
  · rw [List.getElem?_eq_none (by omega)] at hv
    cases hv

theorem neighborValue_le (W H MW crop : Nat) (body : List (List Nat)) (maskFile : List Nat)
    (hwf : WellFormed W H MW crop body maskFile) (x y : Nat) (o : Int × Int)
    (hc : contributes W H body x y o = true) : neighborValue body x y o ≤ 254 := by
  simp only [contributes, decide_eq_true_eq] at hc
  obtain ⟨h1, h2, h3, h4, h5⟩ := hc
  have hlt : neighborValue body x y o < 256 := by
    obtain ⟨nx, hnx⟩ := Int.eq_ofNat_of_zero_le h1
    obtain ⟨ny, hny⟩ := Int.eq_ofNat_of_zero_le h3
    obtain ⟨v, hv, hv256, _, _⟩ :=
      pixelAt?_eq W H MW crop body maskFile hwf nx ny (by omega) (by omega)
    simp only [neighborValue, hnx, hny, Int.toNat_ofNat, hv, Option.getD_some]
    rw [if_neg (by omega)]
    exact hv256
  omega

theorem refWeightedSum_le (W H MW crop : Nat) (body : List (List Nat)) (maskFile : List Nat)
    (hwf : WellFormed W H MW crop body maskFile) (x y : Nat) :
    refWeightedSum W H body x y ≤ 254 * refTotalWeight W H body x y := by
  unfold refWeightedSum refTotalWeight
  have key : ∀ l : List (Int × Int), (∀ o ∈ l, contributes W H body x y o = true) →
      (l.map (fun o => (5 - (o.1.natAbs + o.2.natAbs)) * neighborValue body x y o)).sum
        ≤ 254 * (l.map (fun o => 5 - (o.1.natAbs + o.2.natAbs))).sum := by
    intro l
    induction l with
    | nil => intro _; simp
    | cons o l ih =>
      intro h
      have h1 := neighborValue_le W H MW crop body maskFile hwf x y o (h o (List.mem_cons_self _ _))
      have h2 := ih (fun o2 ho2 => h o2 (List.mem_cons_of_mem _ ho2))
      simp only [List.map_cons, List.sum_cons]
      have h3 : (5 - (o.1.natAbs + o.2.natAbs)) * neighborValue body x y o
          ≤ (5 - (o.1.natAbs + o.2.natAbs)) * 254 := Nat.mul_le_mul_left _ h1
      rw [Nat.mul_add]
      omega
  exact key _ (fun o ho => (List.mem_filter.mp ho).2)

theorem repairedValue_le (W H MW crop : Nat) (body : List (List Nat)) (maskFile : List Nat)
    (hwf : WellFormed W H MW crop body maskFile) (x y : Nat) :
    refWeightedSum W H body x y / refTotalWeight W H body x y ≤ 254 := by
  by_cases h0 : refTotalWeight W H body x y = 0
  · rw [h0, Nat.div_zero]; omega
  · apply Nat.div_le_of_le_mul
    rw [Nat.mul_comm]
    exact refWeightedSum_le W H MW crop body maskFile hwf x y

theorem refPixel_lt (W H MW crop : Nat) (body : List (List Nat)) (maskFile : List Nat)
    (hwf : WellFormed W H MW crop body maskFile) (x y : Nat) (hx : x < W) (hy : y < H) :
    refPixel W H MW crop body maskFile x y < 256 := by
  obtain ⟨v, hv, hv256, _, _⟩ := pixelAt?_eq W H MW crop body maskFile hwf x y hx hy
  unfold refPixel
  simp only [hv, Option.getD_some]
  split
  · split
    · split
      · exact Nat.mod_lt _ (by decide)
      · exact hv256
    · exact hv256
  · exact hv256

theorem wellFormed_refBody (W H MW crop : Nat) (body : List (List Nat)) (maskFile : List Nat)
    (hwf : WellFormed W H MW crop body maskFile) :
    WellFormed W H MW crop (refBody W H MW crop body maskFile H) maskFile := by
  refine ⟨hwf.1, by simp [refBody], ?_, hwf.2.2.2.1, hwf.2.2.2.2⟩
  intro row hrow
  simp only [refBody, List.mem_map, List.mem_range] at hrow
  obtain ⟨y, hy, rfl⟩ := hrow
  refine ⟨by simp [refRow], ?_⟩
  intro v hv
  simp only [refRow, List.mem_map, List.mem_range] at hv
  obtain ⟨x, hx, rfl⟩ := hv
  exact refPixel_lt W H MW crop body maskFile hwf x y hx hy

theorem refPixel_water (W H MW crop : Nat) (body : List (List Nat)) (maskFile : List Nat)
    (x y m v : Nat) (hm : maskByte? W MW crop maskFile x y = some m) (hwater : m ≤ 128)
    (hv : pixelAt? body x y = some v) : refPixel W H MW crop body maskFile x y = v := by
  unfold refPixel
  simp only [hm, hv, Option.getD_some]
  rw [if_neg (by omega)]

theorem refPixel_land_fill (W H MW crop : Nat) (body : List (List Nat)) (maskFile : List Nat)
    (x y m : Nat) (hm : maskByte? W MW crop maskFile x y = some m) (hland : 128 < m)
    (hv : pixelAt? body x y = some 255) :
    refPixel W H MW crop body maskFile x y
      = if refTotalWeight W H body x y > 11
        then refWeightedSum W H body x y / refTotalWeight W H body x y % 256 else 255 := by
  unfold refPixel
  simp only [hm, hv, Option.getD_some]
  rw [if_pos hland, if_pos trivial]

theorem refCount_land_fill (W H MW crop : Nat) (body : List (List Nat)) (maskFile : List Nat)
    (x y m : Nat) (hm : maskByte? W MW crop maskFile x y = some m) (hland : 128 < m)
    (hv : pixelAt? body x y = some 255) (c : PassResult) :
    refCount W H MW crop body maskFile x y c
      = if refTotalWeight W H body x y > 11
        then { c with fixedPixels := c.fixedPixels + 1 }
        else { c with unfixablePixels := c.unfixablePixels + 1 } := by
  unfold refCount
  simp only [hm, hv, Option.getD_some]
  rw [if_pos hland, if_pos trivial]

theorem runPasses_water (W H MW crop : Nat) (maskFile : List Nat)
    (x y m v : Nat) (hm : maskByte? W MW crop maskFile x y = some m) (hwater : m ≤ 128) :
    ∀ (n : Nat) (body : List (List Nat)), WellFormed W H MW crop body maskFile →
      pixelAt? body x y = some v →
      ∃ out, runPasses W H MW crop maskFile n body = some out ∧
        WellFormed W H MW crop out maskFile ∧ pixelAt? out x y = some v
  | 0, body, hwf, hv => ⟨body, rfl, hwf, hv⟩
  | n + 1, body, hwf, hv => by
    obtain ⟨prev, hrun, hwfp, hvp⟩ := runPasses_water W H MW crop maskFile x y m v hm hwater n body hwf hv
    obtain ⟨hx, hy, _⟩ := pixelAt?_bounds W H MW crop prev maskFile hwfp x y v hvp
    refine ⟨refBody W H MW crop prev maskFile H, ?_, wellFormed_refBody W H MW crop prev maskFile hwfp, ?_⟩
    · simp only [runPasses, hrun, fillMissingPixels_eq W H MW crop prev maskFile hwfp]
    · rw [pixelAt?_refBody W H MW crop prev maskFile x y hx hy,
        refPixel_water W H MW crop prev maskFile x y m v hm hwater hvp]

/-! ## Header and reduction: the claims -/

/-- C1, the code at the failing input.  On the one-row raster `[0, 255]` the
scan returns minimum 0 and maximum 255, and the reduction maps the non-fill
sample 255 (the maximum) to 255, the value reserved for fill pixels. -/
theorem reduceBitDepth_max_becomes_fill :
    ∃ stats, findPixelRange 2 1 [[0, 255]] = some stats ∧
      stats.minPixelValue = 0 ∧ stats.maxPixelValue = 255 ∧
      reduceBitDepth 2 1 stats [[0, 255]] = some [[0, 255]] := by
  refine ⟨{ minPixelValue := 0, maxPixelValue := 255,
            bitReductionFactor := ((((255 : Nat) : ℤ) - ((0 : Nat) : ℤ) + 1 : ℤ) : ℚ) / 256 },
    ?_, rfl, rfl, ?_⟩
  · simp [findPixelRange, scanRows, readRow, scanPixel]
  · simp only [reduceBitDepth, reduceRows, readRow, List.length_cons, List.length_nil,
      if_true, List.nil_append, List.map_cons, List.map_nil]
    rw [reducedPixel_max 0 255 (by decide) (by decide),
      reducedPixel_in_range 0 255 0 (by decide) (by decide) (by decide)]

/-- Between the minimum and the maximum the reduction is monotone. -/
theorem reducedPixel_monotone (mn mx v1 v2 : Nat) (h1 : mn ≤ v1) (h12 : v1 ≤ v2)
    (h2 : v2 ≤ mx) (hmx : mx ≤ 65528) :
    reducedPixel mn ((((mx : ℤ) - (mn : ℤ) + 1 : ℤ) : ℚ) / 256) v1
      ≤ reducedPixel mn ((((mx : ℤ) - (mn : ℤ) + 1 : ℤ) : ℚ) / 256) v2 := by
  rw [reducedPixel_in_range mn mx v1 h1 (by omega) hmx,
    reducedPixel_in_range mn mx v2 (by omega) h2 hmx]
  apply Nat.div_le_div_right
  omega

/-- The scan of a raster: its result, written with the fold of `scanPixel`,
bounds every non-fill sample and its maximum is not a fill value. -/
theorem findPixelRange_bounds (W H : Nat) (file : List (List Nat))
    (hlen : file.length = H) (hrow : ∀ row ∈ file, row.length = W) :
    findPixelRange W H file
      = some { minPixelValue := (file.flatten.foldl scanPixel (0xFFFF, 0)).1,
               maxPixelValue := (file.flatten.foldl scanPixel (0xFFFF, 0)).2,
               bitReductionFactor :=
                 ((((file.flatten.foldl scanPixel (0xFFFF, 0)).2 : ℤ)
                   - ((file.flatten.foldl scanPixel (0xFFFF, 0)).1 : ℤ) + 1 : ℤ) : ℚ) / 256 } ∧
    (file.flatten.foldl scanPixel (0xFFFF, 0)).2 ≤ 65528 ∧
    (∀ v ∈ file.flatten, v ≤ 65528 →
      (file.flatten.foldl scanPixel (0xFFFF, 0)).1 ≤ v ∧
      v ≤ (file.flatten.foldl scanPixel (0xFFFF, 0)).2) := by
  obtain ⟨_, _, a3, b1, _, b3⟩ := foldl_scanPixel file.flatten (0xFFFF, 0)
  refine ⟨?_, ?_, fun v hv hle => ⟨a3 v hv hle, b3 v hv hle⟩⟩
  · simp only [findPixelRange, scanRows_eq W H file _ hlen hrow]
  · rcases b1 with h | h
    · simp only at h
      omega
    · exact h.2

theorem reduceRows_eq (W mn : Nat) (f : ℚ) : ∀ (n : Nat) (file written : List (List Nat)),
    file.length = n → (∀ row ∈ file, row.length = W) →
    reduceRows W mn f n file written
      = some (written ++ file.map (List.map (reducedPixel mn f)))
  | 0, file, written, hlen, _ => by
    have : file = [] := List.length_eq_zero.mp hlen
    subst this
    simp [reduceRows]
  | n + 1, [], written, hlen, _ => by simp at hlen
  | n + 1, row :: rest, written, hlen, hrow => by
    have h1 : row.length = W := hrow row (List.mem_cons_self _ _)
    have h2 : rest.length = n := by simpa using hlen
    have h3 : ∀ r ∈ rest, r.length = W := fun r hr => hrow r (List.mem_cons_of_mem _ hr)
    simp [reduceRows, readRow, h1, reduceRows_eq W mn f n rest _ h2 h3]

/-- C7, monotonicity of reduction.  For a raster of `H` rows of `W` samples,
scanned by `findPixelRange`, and two of its samples `v1 ≤ v2 ≤ 65528`: the scan
returns `min ≤ max ≤ 65528` with `min ≤ v1` and `v2 ≤ max`, `reduceBitDepth`
returns the raster with every sample replaced by its reduced sample, and the
reduced sample of `v1` is at most the reduced sample of `v2`. -/
theorem reduceBitDepth_monotone (W H : Nat) (file : List (List Nat))
    (hlen : file.length = H) (hrow : ∀ row ∈ file, row.length = W) (v1 v2 : Nat)
    (h1 : v1 ∈ file.flatten) (h2 : v2 ∈ file.flatten) (h12 : v1 ≤ v2) (hv2 : v2 ≤ 65528) :
    ∃ stats, findPixelRange W H file = some stats ∧
      stats.minPixelValue ≤ stats.maxPixelValue ∧ stats.maxPixelValue ≤ 65528 ∧
      stats.minPixelValue ≤ v1 ∧ v2 ≤ stats.maxPixelValue ∧
      reduceBitDepth W H stats file
        = some (file.map
            (List.map (reducedPixel stats.minPixelValue stats.bitReductionFactor))) ∧
      reducedPixel stats.minPixelValue stats.bitReductionFactor v1
        ≤ reducedPixel stats.minPixelValue stats.bitReductionFactor v2 := by
  obtain ⟨hf, hmax, hb⟩ := findPixelRange_bounds W H file hlen hrow
  obtain ⟨hmin1, _⟩ := hb v1 h1 (by omega)
  obtain ⟨_, hmax2⟩ := hb v2 h2 hv2
  refine ⟨_, hf, le_trans hmin1 (le_trans h12 hmax2), hmax, hmin1, hmax2, ?_, ?_⟩
  · simp only [reduceBitDepth, reduceRows_eq W _ _ H file [] hlen hrow, List.nil_append]
  · exact reducedPixel_monotone _ _ v1 v2 hmin1 h12 hmax2 hmax

/-- C7 on a two-row raster with two fill samples, for the samples 40 and 700. -/
theorem reduceBitDepth_monotone_witness :
    ∃ stats, findPixelRange 3 2 [[700, 65535, 12], [40, 65529, 9000]] = some stats ∧
      stats.minPixelValue ≤ stats.maxPixelValue ∧ stats.maxPixelValue ≤ 65528 ∧
      stats.minPixelValue ≤ 40 ∧ 700 ≤ stats.maxPixelValue ∧
      reduceBitDepth 3 2 stats [[700, 65535, 12], [40, 65529, 9000]]
        = some ([[700, 65535, 12], [40, 65529, 9000]].map
            (List.map (reducedPixel stats.minPixelValue stats.bitReductionFactor))) ∧
      reducedPixel stats.minPixelValue stats.bitReductionFactor 40
        ≤ reducedPixel stats.minPixelValue stats.bitReductionFactor 700 :=
  reduceBitDepth_monotone 3 2 [[700, 65535, 12], [40, 65529, 9000]] (by decide) (by decide)
    40 700 (by decide) (by decide) (by decide) (by decide)

/-- C8, the range of the non-fill samples.  For a raster of `H` rows of `W`
samples with at least one sample `≤ 65528`, `findPixelRange` returns, and its
minimum and maximum are the least and the greatest of the samples `≤ 65528`,
the minimum is at most the maximum, and the reduction factor is exactly
`(max - min + 1) / 256`. -/
theorem findPixelRange_min_max (W H : Nat) (file : List (List Nat))
    (hlen : file.length = H) (hrow : ∀ row ∈ file, row.length = W)
    (hex : ∃ v ∈ file.flatten, v ≤ 65528) :
    ∃ stats, findPixelRange W H file = some stats ∧
      stats.minPixelValue ∈ validSamples file ∧
      (∀ v ∈ validSamples file, stats.minPixelValue ≤ v) ∧
      stats.maxPixelValue ∈ validSamples file ∧
      (∀ v ∈ validSamples file, v ≤ stats.maxPixelValue) ∧
      stats.minPixelValue ≤ stats.maxPixelValue ∧
      stats.bitReductionFactor
        = ((stats.maxPixelValue - stats.minPixelValue + 1 : Nat) : ℚ) / 256 := by
  obtain ⟨v, hv, hv2⟩ := hex
  obtain ⟨a1, _, a3, b1, _, b3⟩ := foldl_scanPixel file.flatten (0xFFFF, 0)
  have hmin := a3 v hv hv2
  have hmax := b3 v hv hv2
  have hle : (file.flatten.foldl scanPixel (0xFFFF, 0)).1
      ≤ (file.flatten.foldl scanPixel (0xFFFF, 0)).2 := le_trans hmin hmax
  refine ⟨{ minPixelValue := (file.flatten.foldl scanPixel (0xFFFF, 0)).1,
            maxPixelValue := (file.flatten.foldl scanPixel (0xFFFF, 0)).2,
            bitReductionFactor :=
              ((((file.flatten.foldl scanPixel (0xFFFF, 0)).2 : ℤ)
                - ((file.flatten.foldl scanPixel (0xFFFF, 0)).1 : ℤ) + 1 : ℤ) : ℚ) / 256 },
    ?_, ?_, ?_, ?_, ?_, ?_, ?_⟩
  · simp only [findPixelRange, scanRows_eq W H file _ hlen hrow]
  · simp only [validSamples, List.mem_filter, decide_eq_true_eq]
    rcases a1 with h | h
    · simp only at h; omega
    · exact h
  · intro u hu
    simp only [validSamples, List.mem_filter, decide_eq_true_eq] at hu
    exact a3 u hu.1 hu.2
  · simp only [validSamples, List.mem_filter, decide_eq_true_eq]
    rcases b1 with h | h
    · simp only at h
      have hv0 : v = 0 := by omega
      subst hv0
      exact ⟨by simpa [h] using hv, by omega⟩
    · exact h
  · intro u hu
    simp only [validSamples, List.mem_filter, decide_eq_true_eq] at hu
    exact b3 u hu.1 hu.2
  · exact hle
  · simp only
    congr 1
    push_cast [Nat.cast_sub hle]
    ring

theorem findPixelRange_min_max_witness :
    ∃ stats, findPixelRange 3 2 [[700, 65535, 12], [40, 65529, 9000]] = some stats ∧
      stats.minPixelValue ∈ validSamples [[700, 65535, 12], [40, 65529, 9000]] ∧
      (∀ v ∈ validSamples [[700, 65535, 12], [40, 65529, 9000]], stats.minPixelValue ≤ v) ∧
      stats.maxPixelValue ∈ validSamples [[700, 65535, 12], [40, 65529, 9000]] ∧
      (∀ v ∈ validSamples [[700, 65535, 12], [40, 65529, 9000]], v ≤ stats.maxPixelValue) ∧
      stats.minPixelValue ≤ stats.maxPixelValue ∧
      stats.bitReductionFactor
        = ((stats.maxPixelValue - stats.minPixelValue + 1 : Nat) : ℚ) / 256 :=
  findPixelRange_min_max 3 2 [[700, 65535, 12], [40, 65529, 9000]] (by decide) (by decide)
    ⟨12, by decide, by decide⟩

/-- C9, header layout.  On a little-endian and on a big-endian host, for all
32-bit patterns `m` of the minimum ETo and `s` of the scaling factor,
`setHeader` fills the buffer with version 1, width 43200 and height 16800 most
significant byte first, bit depth 8, `m` and `s` most significant byte first
and fourteen zero bytes; and `copyBytes` applied to the object representation
of a four-byte value yields its bytes most significant first on both hosts. -/
theorem setHeader_layout (host : Bool) (m s : Nat) :
    setHeader host m s =
      [1, 0x00, 0x00, 0xA8, 0xC0, 0x00, 0x00, 0x41, 0xA0, 8,
       m / 256 ^ 3 % 256, m / 256 ^ 2 % 256, m / 256 % 256, m % 256,
       s / 256 ^ 3 % 256, s / 256 ^ 2 % 256, s / 256 % 256, s % 256,
       0, 0, 0, 0, 0, 0, 0, 0, 0, 0, 0, 0, 0, 0] ∧
    (∀ v : Nat, copyBytes host (objectBytes host 4 v) 4
      = [v / 256 ^ 3 % 256, v / 256 ^ 2 % 256, v / 256 % 256, v % 256]) ∧
    (∀ v : Nat, copyBytes true (objectBytes true 4 v) 4
      = copyBytes false (objectBytes false 4 v) 4) := by
  refine ⟨?_, copyBytes_objectBytes host, fun v => ?_⟩
  · simp only [setHeader, writeHeader_layout]
    simp [IMAGE_WIDTH, IMAGE_HEIGHT]
  · rw [copyBytes_objectBytes, copyBytes_objectBytes]

/-- C10, header round-trip.  For every header whose version and bit depth are
bytes and whose other fields are 32-bit values, on either host byte order the
encoder writes 32 bytes and the decoder reading them returns the header. -/
theorem header_roundtrip (host : Bool) (h : RasterHeader)
    (hv : h.version < 256) (hb : h.bitDepth < 256)
    (hw : h.width < 2 ^ 32) (hh : h.height < 2 ^ 32)
    (hm : h.minETo < 2 ^ 32) (hs : h.scalingFactor < 2 ^ 32) :
    (encodeHeader host h).length = 32 ∧ decodeHeader (encodeHeader host h) = h := by
  obtain ⟨a, w, ht, b, m, s⟩ := h
  simp only at hv hb hw hh hm hs
  simp only [encodeHeader, writeHeader_layout]
  refine ⟨by simp, ?_⟩
  simp only [decodeHeader, readU32, List.getD_cons_zero, List.getD_cons_succ,
    RasterHeader.mk.injEq]
  refine ⟨trivial, ?_, ?_, trivial, ?_, ?_⟩ <;> omega

theorem header_roundtrip_witness :
    (encodeHeader false
        { version := 1, width := 43200, height := 16800, bitDepth := 8,
          minETo := 0x3DCCCCCD, scalingFactor := 0x3F800000 }).length = 32 ∧
    decodeHeader (encodeHeader false
        { version := 1, width := 43200, height := 16800, bitDepth := 8,
          minETo := 0x3DCCCCCD, scalingFactor := 0x3F800000 })
      = { version := 1, width := 43200, height := 16800, bitDepth := 8,
          minETo := 0x3DCCCCCD, scalingFactor := 0x3F800000 } :=
  header_roundtrip false
    { version := 1, width := 43200, height := 16800, bitDepth := 8,
      minETo := 0x3DCCCCCD, scalingFactor := 0x3F800000 }
    (by decide) (by decide) (by decide) (by decide) (by decide) (by decide)

/-! ## Gap-fill pass: the claims -/

/-- C2, repair-or-leave.  On a well-formed input, for a pixel that the mask
classifies as land and whose input value is 255, the pass runs to completion,
and the iteration of the column loop at that pixel stores the output pixel
and either stores a value in `[0, 254]` and increments exactly the fixed
counter, or stores 255 and increments exactly the unfixable counter. -/
theorem fillMissingPixels_repair_or_leave (W H MW crop : Nat) (body : List (List Nat))
    (maskFile : List Nat) (hwf : WellFormed W H MW crop body maskFile) (x y m : Nat)
    (hm : maskByte? W MW crop maskFile x y = some m) (hland : 128 < m)
    (h255 : pixelAt? body x y = some 255) :
    ∃ out res before pixel after,
      fillMissingPixels W H MW crop body maskFile = some (out, res) ∧
      pixelTrace W H MW crop body maskFile x y = some (before, pixel, after) ∧
      pixelAt? out x y = some pixel ∧
      ((pixel ≤ 254 ∧ after = { before with fixedPixels := before.fixedPixels + 1 }) ∨
       (pixel = 255 ∧
          after = { before with unfixablePixels := before.unfixablePixels + 1 })) := by
  obtain ⟨hx, hy, _⟩ := pixelAt?_bounds W H MW crop body maskFile hwf x y 255 h255
  refine ⟨_, _, _, _, _, fillMissingPixels_eq W H MW crop body maskFile hwf,
    pixelTrace_eq W H MW crop body maskFile hwf x y hx hy,
    pixelAt?_refBody W H MW crop body maskFile x y hx hy, ?_⟩
  rw [refPixel_land_fill W H MW crop body maskFile x y m hm hland h255,
    refCount_land_fill W H MW crop body maskFile x y m hm hland h255]
  have hle := repairedValue_le W H MW crop body maskFile hwf x y
  by_cases ht : refTotalWeight W H body x y > 11
  · left
    simp only [ht, if_true, and_true]
    rw [Nat.mod_eq_of_lt (by omega)]
    exact hle
  · right
    simp only [ht, if_false, and_self]

theorem fillMissingPixels_repair_or_leave_witness :
    ∃ out res before pixel after,
      fillMissingPixels 5 5 5 0 exampleBody exampleMask = some (out, res) ∧
      pixelTrace 5 5 5 0 exampleBody exampleMask 2 2 = some (before, pixel, after) ∧
      pixelAt? out 2 2 = some pixel ∧
      ((pixel ≤ 254 ∧ after = { before with fixedPixels := before.fixedPixels + 1 }) ∨
       (pixel = 255 ∧
          after = { before with unfixablePixels := before.unfixablePixels + 1 })) :=
  fillMissingPixels_repair_or_leave 5 5 5 0 exampleBody exampleMask (by decide) 2 2 200
    (by decide) (by decide) (by decide)

/-- C3, water invariance.  On a well-formed input, for a pixel whose mask
byte is at most 128, one pass stores the input value at that pixel, whatever
the value is, and so does every number of chained passes. -/
theorem fillMissingPixels_water_invariance (W H MW crop : Nat) (body : List (List Nat))
    (maskFile : List Nat) (hwf : WellFormed W H MW crop body maskFile) (x y m v : Nat)
    (hm : maskByte? W MW crop maskFile x y = some m) (hwater : m ≤ 128)
    (hv : pixelAt? body x y = some v) :
    (∃ out res, fillMissingPixels W H MW crop body maskFile = some (out, res) ∧
      pixelAt? out x y = some v) ∧
    ∀ n : Nat, ∃ out, runPasses W H MW crop maskFile n body = some out ∧
      pixelAt? out x y = some v := by
  obtain ⟨hx, hy, _⟩ := pixelAt?_bounds W H MW crop body maskFile hwf x y v hv
  refine ⟨⟨_, _, fillMissingPixels_eq W H MW crop body maskFile hwf, ?_⟩, ?_⟩
  · rw [pixelAt?_refBody W H MW crop body maskFile x y hx hy,
      refPixel_water W H MW crop body maskFile x y m v hm hwater hv]
  · intro n
    obtain ⟨out, h1, _, h2⟩ :=
      runPasses_water W H MW crop maskFile x y m v hm hwater n body hwf hv
    exact ⟨out, h1, h2⟩

theorem fillMissingPixels_water_invariance_witness :
    (∃ out res, fillMissingPixels 5 5 5 0 exampleBody exampleMask = some (out, res) ∧
      pixelAt? out 0 0 = some 255) ∧
    ∀ n : Nat, ∃ out, runPasses 5 5 5 0 exampleMask n exampleBody = some out ∧
      pixelAt? out 0 0 = some 255 :=
  fillMissingPixels_water_invariance 5 5 5 0 exampleBody exampleMask (by decide) 0 0 0 255
    (by decide) (by decide) (by decide)

/-- C4, repaired value.  On a well-formed input, for a land pixel with input
value 255 whose reference total weight exceeds 11, the pass stores
`refWeightedSum / refTotalWeight` (rounded down) at that pixel, the two sums
ranging over the offsets of the 5x5 window that lie inside the raster and hold
a value other than 255, with weight `5 - (|i| + |j|)`; the weights of the
offsets `(0,0)`, `(2,2)` and `(1,-2)` are 5, 1 and 2. -/
theorem fillMissingPixels_repaired_value (W H MW crop : Nat) (body : List (List Nat))
    (maskFile : List Nat) (hwf : WellFormed W H MW crop body maskFile) (x y m : Nat)
    (hm : maskByte? W MW crop maskFile x y = some m) (hland : 128 < m)
    (h255 : pixelAt? body x y = some 255) (htw : 11 < refTotalWeight W H body x y) :
    (∃ out res, fillMissingPixels W H MW crop body maskFile = some (out, res) ∧
      pixelAt? out x y
        = some (refWeightedSum W H body x y / refTotalWeight W H body x y)) ∧
    weight 0 0 = 5 ∧ weight 2 2 = 1 ∧ weight 1 (-2) = 2 := by
  obtain ⟨hx, hy, _⟩ := pixelAt?_bounds W H MW crop body maskFile hwf x y 255 h255
  refine ⟨⟨_, _, fillMissingPixels_eq W H MW crop body maskFile hwf, ?_⟩, rfl, rfl, rfl⟩
  rw [pixelAt?_refBody W H MW crop body maskFile x y hx hy,
    refPixel_land_fill W H MW crop body maskFile x y m hm hland h255, if_pos htw]
  have hle := repairedValue_le W H MW crop body maskFile hwf x y
  rw [Nat.mod_eq_of_lt (by omega)]

theorem fillMissingPixels_repaired_value_witness :
    (∃ out res, fillMissingPixels 5 5 5 0 coastBodyHigh landMask = some (out, res) ∧
      pixelAt? out 2 2
        = some (refWeightedSum 5 5 coastBodyHigh 2 2 / refTotalWeight 5 5 coastBodyHigh 2 2)) ∧
    weight 0 0 = 5 ∧ weight 2 2 = 1 ∧ weight 1 (-2) = 2 :=
  fillMissingPixels_repaired_value 5 5 5 0 coastBodyHigh landMask (by decide) 2 2 200
    (by decide) (by decide) (by decide) (by decide)

/-- C5, threshold boundary.  On a well-formed input, for a land pixel with
input value 255: when the reference total weight is at least 12 the iteration
at that pixel stores the weighted average (a value other than 255) and
increments exactly the fixed counter; when it is at most 11 the iteration
stores 255 and increments exactly the unfixable counter. -/
theorem fillMissingPixels_threshold (W H MW crop : Nat) (body : List (List Nat))
    (maskFile : List Nat) (hwf : WellFormed W H MW crop body maskFile) (x y m : Nat)
    (hm : maskByte? W MW crop maskFile x y = some m) (hland : 128 < m)
    (h255 : pixelAt? body x y = some 255) :
    ∃ out res before pixel after,
      fillMissingPixels W H MW crop body maskFile = some (out, res) ∧
      pixelTrace W H MW crop body maskFile x y = some (before, pixel, after) ∧
      pixelAt? out x y = some pixel ∧
      (12 ≤ refTotalWeight W H body x y →
        pixel = refWeightedSum W H body x y / refTotalWeight W H body x y ∧ pixel ≠ 255 ∧
        after = { before with fixedPixels := before.fixedPixels + 1 }) ∧
      (refTotalWeight W H body x y ≤ 11 →
        pixel = 255 ∧
        after = { before with unfixablePixels := before.unfixablePixels + 1 }) := by
  obtain ⟨hx, hy, _⟩ := pixelAt?_bounds W H MW crop body maskFile hwf x y 255 h255
  refine ⟨_, _, _, _, _, fillMissingPixels_eq W H MW crop body maskFile hwf,
    pixelTrace_eq W H MW crop body maskFile hwf x y hx hy,
    pixelAt?_refBody W H MW crop body maskFile x y hx hy, ?_, ?_⟩
  · intro ht
    have ht2 : refTotalWeight W H body x y > 11 := by omega
    rw [refPixel_land_fill W H MW crop body maskFile x y m hm hland h255,
      refCount_land_fill W H MW crop body maskFile x y m hm hland h255, if_pos ht2, if_pos ht2]
    have hle := repairedValue_le W H MW crop body maskFile hwf x y
    rw [Nat.mod_eq_of_lt (by omega)]
    exact ⟨rfl, by omega, rfl⟩
  · intro ht
    have ht2 : ¬ refTotalWeight W H body x y > 11 := by omega
    rw [refPixel_land_fill W H MW crop body maskFile x y m hm hland h255,
      refCount_land_fill W H MW crop body maskFile x y m hm hland h255, if_neg ht2, if_neg ht2]
    exact ⟨rfl, rfl⟩

theorem fillMissingPixels_threshold_witness :
    (refTotalWeight 5 5 weight11Body 2 2 = 11 ∧
      ∃ out res before pixel after,
        fillMissingPixels 5 5 5 0 weight11Body landMask = some (out, res) ∧
        pixelTrace 5 5 5 0 weight11Body landMask 2 2 = some (before, pixel, after) ∧
        pixelAt? out 2 2 = some pixel ∧ pixel = 255 ∧
        after = { before with unfixablePixels := before.unfixablePixels + 1 }) ∧
    (refTotalWeight 5 5 weight12Body 2 2 = 12 ∧
      ∃ out res before pixel after,
        fillMissingPixels 5 5 5 0 weight12Body landMask = some (out, res) ∧
        pixelTrace 5 5 5 0 weight12Body landMask 2 2 = some (before, pixel, after) ∧
        pixelAt? out 2 2 = some pixel ∧ pixel = 20 ∧
        after = { before with fixedPixels := before.fixedPixels + 1 }) := by
  constructor
  · refine ⟨by decide, ?_⟩
    obtain ⟨out, res, before, pixel, after, h1, h2, h3, _, h5⟩ :=
      fillMissingPixels_threshold 5 5 5 0 weight11Body landMask (by decide) 2 2 200
        (by decide) (by decide) (by decide)
    obtain ⟨h6, h7⟩ := h5 (by decide)
    exact ⟨out, res, before, pixel, after, h1, h2, h3, h6, h7⟩
  · refine ⟨by decide, ?_⟩
    obtain ⟨out, res, before, pixel, after, h1, h2, h3, h4, _⟩ :=
      fillMissingPixels_threshold 5 5 5 0 weight12Body landMask (by decide) 2 2 200
        (by decide) (by decide) (by decide)
    obtain ⟨h6, _, h7⟩ := h4 (by decide)
    refine ⟨out, res, before, pixel, after, h1, h2, h3, ?_, h7⟩
    rw [h6]
    decide

/-- C6, the claim as stated fails: `(1, 2)` is water for `coastMask`, the two
rasters differ only there, and the weighted sum and the value stored at the
land pixel `(2, 2)` differ. -/
theorem fillMissingPixels_water_neighbour_counts :
    WellFormed 5 5 5 0 coastBodyLow coastMask ∧ WellFormed 5 5 5 0 coastBodyHigh coastMask ∧
    maskByte? 5 5 0 coastMask 1 2 = some 0 ∧
    maskByte? 5 5 0 coastMask 2 2 = some 200 ∧
    pixelAt? coastBodyLow 2 2 = some 255 ∧ pixelAt? coastBodyHigh 2 2 = some 255 ∧
    (∀ y < 5, ∀ x < 5, (x, y) ≠ (1, 2) → pixelAt? coastBodyLow x y = pixelAt? coastBodyHigh x y) ∧
    refWeightedSum 5 5 coastBodyLow 2 2 = 5600 ∧ refWeightedSum 5 5 coastBodyHigh 2 2 = 6616 ∧
    (fillMissingPixels 5 5 5 0 coastBodyLow coastMask).map (fun r => pixelAt? r.1 2 2)
      = some (some 93) ∧
    (fillMissingPixels 5 5 5 0 coastBodyHigh coastMask).map (fun r => pixelAt? r.1 2 2)
      = some (some 110) := by
  refine ⟨by decide, by decide, by decide, by decide, by decide, by decide, by decide,
    by decide, by decide, by decide, by decide⟩

/-- C6 as amended.  On a well-formed input, for a land pixel with input value
255, the value the pass stores is the weighted average over every in-raster
neighbour whose value is not 255, land or water alike (or 255 when their total
weight is at most 11): the mask enters only through the class of the pixel
itself, so two masks that both classify the pixel as land give the same
stored value. -/
theorem fillMissingPixels_neighbour_mask_irrelevant (W H MW crop : Nat)
    (body : List (List Nat)) (maskA maskB : List Nat)
    (hwfA : WellFormed W H MW crop body maskA) (hwfB : WellFormed W H MW crop body maskB)
    (x y mA mB : Nat)
    (hmA : maskByte? W MW crop maskA x y = some mA) (hlandA : 128 < mA)
    (hmB : maskByte? W MW crop maskB x y = some mB) (hlandB : 128 < mB)
    (h255 : pixelAt? body x y = some 255) :
    ∃ outA resA outB resB,
      fillMissingPixels W H MW crop body maskA = some (outA, resA) ∧
      fillMissingPixels W H MW crop body maskB = some (outB, resB) ∧
      pixelAt? outA x y = pixelAt? outB x y ∧
      pixelAt? outA x y
        = some (if 11 < refTotalWeight W H body x y
                then refWeightedSum W H body x y / refTotalWeight W H body x y else 255) := by
  obtain ⟨hx, hy, _⟩ := pixelAt?_bounds W H MW crop body maskA hwfA x y 255 h255
  have hle := repairedValue_le W H MW crop body maskA hwfA x y
  have hA : refPixel W H MW crop body maskA x y
      = if 11 < refTotalWeight W H body x y
        then refWeightedSum W H body x y / refTotalWeight W H body x y else 255 := by
    rw [refPixel_land_fill W H MW crop body maskA x y mA hmA hlandA h255,
      Nat.mod_eq_of_lt (by omega)]
  have hB : refPixel W H MW crop body maskB x y
      = if 11 < refTotalWeight W H body x y
        then refWeightedSum W H body x y / refTotalWeight W H body x y else 255 := by
    rw [refPixel_land_fill W H MW crop body maskB x y mB hmB hlandB h255,
      Nat.mod_eq_of_lt (by omega)]
  refine ⟨_, _, _, _, fillMissingPixels_eq W H MW crop body maskA hwfA,
    fillMissingPixels_eq W H MW crop body maskB hwfB, ?_, ?_⟩
  · rw [pixelAt?_refBody W H MW crop body maskA x y hx hy,
      pixelAt?_refBody W H MW crop body maskB x y hx hy, hA, hB]
  · rw [pixelAt?_refBody W H MW crop body maskA x y hx hy, hA]

theorem fillMissingPixels_neighbour_mask_irrelevant_witness :
    ∃ outA resA outB resB,
      fillMissingPixels 5 5 5 0 coastBodyHigh coastMask = some (outA, resA) ∧
      fillMissingPixels 5 5 5 0 coastBodyHigh landMask = some (outB, resB) ∧
      pixelAt? outA 2 2 = pixelAt? outB 2 2 ∧
      pixelAt? outA 2 2
        = some (if 11 < refTotalWeight 5 5 coastBodyHigh 2 2
                then refWeightedSum 5 5 coastBodyHigh 2 2 / refTotalWeight 5 5 coastBodyHigh 2 2
                else 255) :=
  fillMissingPixels_neighbour_mask_irrelevant 5 5 5 0 coastBodyHigh coastMask landMask
    (by decide) (by decide) 2 2 200 200 (by decide) (by decide) (by decide) (by decide)
    (by decide)

/-! ## Counting: lemmas -/

theorem sum_map_add (l : List Nat) (f g : Nat → Nat) :
    (l.map f).sum + (l.map g).sum = (l.map (fun x => f x + g x)).sum := by
  induction l with
  | nil => rfl
  | cons a l ih => simp only [List.map_cons, List.sum_cons]; omega

theorem sum_map_congr (l : List Nat) (f g : Nat → Nat) (h : ∀ x ∈ l, f x = g x) :
    (l.map f).sum = (l.map g).sum := by
  rw [List.map_congr_left h]

theorem sum_map_eq_zero (l : List Nat) (f : Nat → Nat) :
    (l.map f).sum = 0 ↔ ∀ x ∈ l, f x = 0 := by
  induction l with
  | nil => simp
  | cons a l ih =>
    simp only [List.map_cons, List.sum_cons, List.mem_cons, forall_eq_or_imp, ← ih]
    omega

theorem sum_map_const (l : List Nat) (c : Nat) : (l.map (fun _ => c)).sum = l.length * c := by
  induction l with
  | nil => simp
  | cons a l ih => simp only [List.map_cons, List.sum_cons, List.length_cons, ih]; rw [Nat.succ_mul]; omega

theorem sum_range_indicator (n k : Nat) :
    ((List.range n).map (fun x => if x = k then 1 else 0)).sum = if k < n then 1 else 0 := by
  induction n with
  | zero => simp
  | succ n ih =>
    rw [List.range_succ, List.map_append, List.sum_append, ih]
    simp only [List.map_cons, List.map_nil, List.sum_cons, List.sum_nil, Nat.add_zero]
    by_cases h1 : k < n
    · rw [if_pos h1, if_neg (by omega), if_pos (by omega)]
    · rw [if_neg h1]
      by_cases h2 : n = k
      · rw [if_pos h2, if_pos (by omega)]
      · rw [if_neg h2, if_neg (by omega)]

theorem gridSum_add (W n : Nat) (f g : Nat → Nat → Nat) :
    gridSum W n f + gridSum W n g = gridSum W n (fun x y => f x y + g x y) := by
  unfold gridSum
  rw [sum_map_add]
  apply sum_map_congr
  intro y _
  exact sum_map_add _ _ _

theorem gridSum_congr (W n : Nat) (f g : Nat → Nat → Nat)
    (h : ∀ x y, x < W → y < n → f x y = g x y) : gridSum W n f = gridSum W n g := by
  unfold gridSum
  apply sum_map_congr
  intro y hy
  apply sum_map_congr
  intro x hx
  exact h x y (List.mem_range.mp hx) (List.mem_range.mp hy)

theorem gridSum_one (W n : Nat) : gridSum W n (fun _ _ => 1) = W * n := by
  unfold gridSum
  simp only [sum_map_const, List.length_range, Nat.mul_one]
  rw [Nat.mul_comm]

theorem gridSum_eq_zero (W n : Nat) (f : Nat → Nat → Nat) :
    gridSum W n f = 0 ↔ ∀ x y, x < W → y < n → f x y = 0 := by
  unfold gridSum
  rw [sum_map_eq_zero]
  constructor
  · intro h x y hx hy
    exact (sum_map_eq_zero _ _).mp (h y (List.mem_range.mpr hy)) x (List.mem_range.mpr hx)
  · intro h y hy
    exact (sum_map_eq_zero _ _).mpr (fun x hx => h x y (List.mem_range.mp hx) (List.mem_range.mp hy))

theorem gridSum_single (W n x0 y0 : Nat) (hx : x0 < W) (hy : y0 < n) :
    gridSum W n (fun x y => if x = x0 ∧ y = y0 then 1 else 0) = 1 := by
  unfold gridSum
  have h1 : ∀ y ∈ List.range n,
      ((List.range W).map (fun x => if x = x0 ∧ y = y0 then 1 else 0)).sum
        = if y = y0 then 1 else 0 := by
    intro y _
    by_cases hyy : y = y0
    · simp only [hyy, and_true, if_true]
      rw [sum_range_indicator, if_pos hx]
    · simp only [hyy, and_false, if_false]
      rw [sum_map_const, Nat.mul_zero]
  rw [sum_map_congr _ _ _ h1, sum_range_indicator, if_pos hy]

theorem indicator_water (a : Bool) :
    (if a = true then 0 else 1) = if (!a) = true then 1 else 0 := by
  cases a <;> rfl

theorem indicator_fill_land (a b c : Bool) :
    (if (a && b && c) = true then 1 else 0) + (if (a && b && !c) = true then 1 else 0)
      = if (a && b) = true then 1 else 0 := by
  cases a <;> cases b <;> cases c <;> rfl

theorem indicator_partition (a b c : Bool) :
    (if (a && b && c) = true then 1 else 0) + (if (a && b && !c) = true then 1 else 0)
      + (if a = true then 0 else 1) + (if (a && !b) = true then 1 else 0) = 1 := by
  cases a <;> cases b <;> cases c <;> rfl

theorem indicator_step (a b c : Bool) (f u w : Nat) :
    f ≤ f + (if (a && b && c) = true then 1 else 0) ∧
    u ≤ u + (if (a && b && !c) = true then 1 else 0) ∧
    w ≤ w + (if a = true then 0 else 1) ∧
    f + (if (a && b && c) = true then 1 else 0) + (u + (if (a && b && !c) = true then 1 else 0))
      + (w + (if a = true then 0 else 1)) ≤ f + u + w + 1 := by
  cases a <;> cases b <;> cases c <;> simp <;> omega

theorem isFill_iff (body : List (List Nat)) (x y : Nat) :
    isFill body x y = true ↔ (pixelAt? body x y).getD 0 = 255 := by
  unfold isFill
  rw [decide_eq_true_eq]
  cases h : pixelAt? body x y with
  | none => simp
  | some v => simp

theorem refCount_indicator (W H MW crop : Nat) (body : List (List Nat)) (maskFile : List Nat)
    (x y : Nat) (c : PassResult) :
    refCount W H MW crop body maskFile x y c =
      { fixedPixels := c.fixedPixels
          + (if fixedAt W H MW crop body maskFile x y = true then 1 else 0),
        unfixablePixels := c.unfixablePixels
          + (if unfixableAt W H MW crop body maskFile x y = true then 1 else 0),
        waterPixels := c.waterPixels
          + (if isLand W MW crop maskFile x y = true then 0 else 1) } := by
  have hf := isFill_iff body x y
  unfold refCount fixedAt unfixableAt
  by_cases h1 : (maskByte? W MW crop maskFile x y).getD 0 > 128
  · have hl : isLand W MW crop maskFile x y = true := by simp [isLand, h1]
    by_cases h2 : (pixelAt? body x y).getD 0 = 255
    · have hfl : isFill body x y = true := hf.mpr h2
      by_cases h3 : refTotalWeight W H body x y > 11
      · simp [h1, h2, h3, hl, hfl]
      · simp [h1, h2, h3, hl, hfl]
    · have hfl : isFill body x y = false := by
        cases h : isFill body x y with
        | false => rfl
        | true => exact absurd (hf.mp h) h2
      simp [h1, h2, hl, hfl]
  · have hl : isLand W MW crop maskFile x y = false := by simp [isLand, h1]
    simp [h1, hl]

theorem refRowCount_indicator (W H MW crop : Nat) (body : List (List Nat)) (maskFile : List Nat)
    (y : Nat) (c : PassResult) : ∀ n : Nat,
    refRowCount W H MW crop body maskFile y n c =
      { fixedPixels := c.fixedPixels + ((List.range n).map
          (fun x => if fixedAt W H MW crop body maskFile x y = true then 1 else 0)).sum,
        unfixablePixels := c.unfixablePixels + ((List.range n).map
          (fun x => if unfixableAt W H MW crop body maskFile x y = true then 1 else 0)).sum,
        waterPixels := c.waterPixels + ((List.range n).map
          (fun x => if isLand W MW crop maskFile x y = true then 0 else 1)).sum }
  | 0 => by simp [refRowCount]
  | n + 1 => by
    have ih := refRowCount_indicator W H MW crop body maskFile y c n
    unfold refRowCount at ih ⊢
    rw [List.range_succ, List.foldl_append, ih]
    simp only [List.foldl_cons, List.foldl_nil, refCount_indicator, List.map_append,
      List.map_cons, List.map_nil, List.sum_append, List.sum_cons, List.sum_nil, Nat.add_zero,
      Nat.add_assoc]

theorem refPassCount_indicator (W H MW crop : Nat) (body : List (List Nat)) (maskFile : List Nat) :
    ∀ n : Nat,
    refPassCount W H MW crop body maskFile n =
      { fixedPixels := gridSum W n
          (fun x y => if fixedAt W H MW crop body maskFile x y = true then 1 else 0),
        unfixablePixels := gridSum W n
          (fun x y => if unfixableAt W H MW crop body maskFile x y = true then 1 else 0),
        waterPixels := gridSum W n
          (fun x y => if isLand W MW crop maskFile x y = true then 0 else 1) }
  | 0 => by simp [refPassCount, gridSum]
  | n + 1 => by
    have ih := refPassCount_indicator W H MW crop body maskFile n
    unfold refPassCount at ih ⊢
    rw [List.range_succ, List.foldl_append, ih]
    simp only [List.foldl_cons, List.foldl_nil, refRowCount_indicator, gridSum, List.range_succ,
      List.map_append, List.map_cons, List.map_nil, List.sum_append, List.sum_cons, List.sum_nil,
      Nat.add_zero]

theorem isLand_of_maskByte (W MW crop : Nat) (maskFile : List Nat) (x y m : Nat)
    (hm : maskByte? W MW crop maskFile x y = some m) :
    isLand W MW crop maskFile x y = decide (128 < m) := by
  simp only [isLand, hm, Option.getD_some, gt_iff_lt]

theorem refPixel_cases (W H MW crop : Nat) (body : List (List Nat)) (maskFile : List Nat)
    (hwf : WellFormed W H MW crop body maskFile) (x y : Nat) (hx : x < W) (hy : y < H) :
    ∃ v, pixelAt? body x y = some v ∧ v < 256 ∧
      (fixedAt W H MW crop body maskFile x y = true →
        v = 255 ∧ refPixel W H MW crop body maskFile x y ≤ 254 ∧
        refPixel W H MW crop body maskFile x y
          = refWeightedSum W H body x y / refTotalWeight W H body x y) ∧
      (fixedAt W H MW crop body maskFile x y = false →
        refPixel W H MW crop body maskFile x y = v) := by
  obtain ⟨v, hv, hv256, _, _⟩ := pixelAt?_eq W H MW crop body maskFile hwf x y hx hy
  have hle := repairedValue_le W H MW crop body maskFile hwf x y
  refine ⟨v, hv, hv256, ?_, ?_⟩
  · intro hf
    simp only [fixedAt, isLand, isFill, hv, Bool.and_eq_true, decide_eq_true_eq,
      Option.some.injEq] at hf
    obtain ⟨⟨h1, h2⟩, h3⟩ := hf
    have hp : refPixel W H MW crop body maskFile x y
        = refWeightedSum W H body x y / refTotalWeight W H body x y := by
      unfold refPixel
      simp only [hv, Option.getD_some]
      rw [if_pos h1, if_pos h2, if_pos h3, Nat.mod_eq_of_lt (by omega)]
    exact ⟨h2, by rw [hp]; exact hle, hp⟩
  · intro hf
    unfold refPixel
    simp only [hv, Option.getD_some]
    by_cases h1 : (maskByte? W MW crop maskFile x y).getD 0 > 128
    · by_cases h2 : v = 255
      · by_cases h3 : refTotalWeight W H body x y > 11
        · exfalso
          have : fixedAt W H MW crop body maskFile x y = true := by
            simp only [fixedAt, isLand, isFill, hv, Bool.and_eq_true, decide_eq_true_eq,
              Option.some.injEq]
            exact ⟨⟨h1, h2⟩, h3⟩
          rw [this] at hf
          cases hf
        · rw [if_pos h1, if_pos h2, if_neg h3]
      · rw [if_pos h1, if_neg h2]
    · rw [if_neg h1]

theorem refBody_eq_self (W H MW crop : Nat) (body : List (List Nat)) (maskFile : List Nat)
    (hwf : WellFormed W H MW crop body maskFile)
    (hno : ∀ x y, x < W → y < H → fixedAt W H MW crop body maskFile x y = false) :
    refBody W H MW crop body maskFile H = body := by
  have hlen := hwf.2.1
  apply List.ext_getElem
  · simp [refBody, hlen]
  · intro y h1 h2
    have hy : y < H := by omega
    have hrl : (body[y]).length = W := (hwf.2.2.1 _ (List.getElem_mem h2)).1
    simp only [refBody, List.getElem_map, List.getElem_range, refRow]
    apply List.ext_getElem
    · simp [hrl]
    · intro x h3 h4
      have hx : x < W := by omega
      simp only [List.getElem_map, List.getElem_range]
      obtain ⟨v, hv, _, _, hb⟩ := refPixel_cases W H MW crop body maskFile hwf x y hx hy
      rw [hb (hno x y hx hy)]
      simp only [pixelAt?, List.getElem?_eq_getElem h2, List.getElem?_eq_getElem h4,
        Option.some.injEq] at hv
      exact hv.symm

theorem runPasses_fixpoint (W H MW crop : Nat) (body : List (List Nat)) (maskFile : List Nat)
    (hwf : WellFormed W H MW crop body maskFile)
    (hno : ∀ x y, x < W → y < H → fixedAt W H MW crop body maskFile x y = false) :
    ∀ n : Nat, runPasses W H MW crop maskFile n body = some body
  | 0 => rfl
  | n + 1 => by
    simp only [runPasses, runPasses_fixpoint W H MW crop body maskFile hwf hno n,
      fillMissingPixels_eq W H MW crop body maskFile hwf,
      refBody_eq_self W H MW crop body maskFile hwf hno]

theorem offsets_bounds (o : Int × Int) (ho : o ∈ offsets) :
    -2 ≤ o.1 ∧ o.1 ≤ 2 ∧ -2 ≤ o.2 ∧ o.2 ≤ 2 := by
  simp only [offsets, List.mem_flatMap, List.mem_map] at ho
  obtain ⟨i, hi, j, hj, rfl⟩ := ho
  have h1 := offsetRange_bounds i hi
  have h2 := offsetRange_bounds j hj
  exact ⟨h1.1, h1.2, h2.1, h2.2⟩

theorem sum_filter_map (l : List (Int × Int)) (p : Int × Int → Bool) (f : Int × Int → Nat) :
    ((l.filter p).map f).sum = (l.map (fun o => if p o = true then f o else 0)).sum := by
  induction l with
  | nil => rfl
  | cons a l ih =>
    by_cases h : p a = true
    · simp only [List.filter_cons_of_pos h, List.map_cons, List.sum_cons, ih, h, if_true]
    · simp only [List.filter_cons_of_neg h, List.map_cons, List.sum_cons, ih, h, if_false,
        Nat.zero_add, Bool.false_eq_true]

theorem sum_filter_const (l : List (Int × Int)) (p : Int × Int → Bool)
    (w val : Int × Int → Nat) (c : Nat) (h : ∀ o ∈ l, p o = true → val o = c) :
    ((l.filter p).map (fun o => w o * val o)).sum = ((l.filter p).map w).sum * c := by
  induction l with
  | nil => simp
  | cons a l ih =>
    have ih2 := ih (fun o ho => h o (List.mem_cons_of_mem _ ho))
    by_cases hp : p a = true
    · simp only [List.filter_cons_of_pos hp, List.map_cons, List.sum_cons, ih2,
        h a (List.mem_cons_self _ _) hp, Nat.add_mul]
    · simp only [List.filter_cons_of_neg hp, ih2]

theorem offsets_eq : offsets =
    [(-2, -2), (-2, -1), (-2, 0), (-2, 1), (-2, 2), (-1, -2), (-1, -1), (-1, 0), (-1, 1),
     (-1, 2), (0, -2), (0, -1), (0, 0), (0, 1), (0, 2), (1, -2), (1, -1), (1, 0), (1, 1),
     (1, 2), (2, -2), (2, -1), (2, 0), (2, 1), (2, 2)] := by
  decide

/-- The four direct neighbours alone give a total weight of 16. -/
theorem refTotalWeight_direct (W H : Nat) (body : List (List Nat)) (x y : Nat)
    (h1 : contributes W H body x y (-1, 0) = true) (h2 : contributes W H body x y (0, -1) = true)
    (h3 : contributes W H body x y (0, 1) = true) (h4 : contributes W H body x y (1, 0) = true) :
    16 ≤ refTotalWeight W H body x y := by
  unfold refTotalWeight
  rw [sum_filter_map, offsets_eq]
  simp only [List.map_cons, List.map_nil, List.sum_cons, List.sum_nil, h1, h2, h3, h4, if_true]
  simp only [Int.natAbs_neg, Int.natAbs_zero, Int.natAbs_one]
  omega

theorem contributes_agree (W H : Nat) (bodyA bodyB : List (List Nat)) (x y : Nat)
    (hagree : ∀ y2 < H, ∀ x2 < W, (x2 ≤ x + 2 ∧ x ≤ x2 + 2 ∧ y2 ≤ y + 2 ∧ y ≤ y2 + 2) →
      pixelAt? bodyA x2 y2 = pixelAt? bodyB x2 y2)
    (o : Int × Int) (ho : o ∈ offsets) :
    contributes W H bodyA x y o = contributes W H bodyB x y o ∧
    (contributes W H bodyA x y o = true →
      neighborValue bodyA x y o = neighborValue bodyB x y o) := by
  obtain ⟨b1, b2, b3, b4⟩ := offsets_bounds o ho
  by_cases hin : 0 ≤ (x : Int) + o.1 ∧ (x : Int) + o.1 < W ∧ 0 ≤ (y : Int) + o.2
      ∧ (y : Int) + o.2 < H
  · obtain ⟨h1, h2, h3, h4⟩ := hin
    obtain ⟨nx, hnx⟩ := Int.eq_ofNat_of_zero_le h1
    obtain ⟨ny, hny⟩ := Int.eq_ofNat_of_zero_le h3
    have hp := hagree ny (by omega) nx (by omega) ⟨by omega, by omega, by omega, by omega⟩
    have hv : neighborValue bodyA x y o = neighborValue bodyB x y o := by
      simp only [neighborValue, hnx, hny, Int.toNat_ofNat, hp]
    exact ⟨by simp only [contributes, hv], fun _ => hv⟩
  · have hA : contributes W H bodyA x y o = false := by
      simp only [contributes, decide_eq_false_iff_not]
      intro h
      exact hin ⟨h.1, h.2.1, h.2.2.1, h.2.2.2.1⟩
    have hB : contributes W H bodyB x y o = false := by
      simp only [contributes, decide_eq_false_iff_not]
      intro h
      exact hin ⟨h.1, h.2.1, h.2.2.1, h.2.2.2.1⟩
    rw [hA, hB]
    exact ⟨rfl, fun h => by cases h⟩

theorem sum_filter_agree (l : List (Int × Int)) (p q : Int × Int → Bool)
    (f g : Int × Int → Nat)
    (h : ∀ o ∈ l, p o = q o ∧ (p o = true → f o = g o)) :
    ((l.filter p).map f).sum = ((l.filter q).map g).sum := by
  induction l with
  | nil => rfl
  | cons a l ih =>
    have ih2 := ih (fun o ho => h o (List.mem_cons_of_mem _ ho))
    obtain ⟨h1, h2⟩ := h a (List.mem_cons_self _ _)
    by_cases hp : p a = true
    · have hq : q a = true := by rw [← h1]; exact hp
      simp only [List.filter_cons_of_pos hp, List.filter_cons_of_pos hq, List.map_cons,
        List.sum_cons, ih2, h2 hp]
    · have hq : ¬ q a = true := by rw [← h1]; exact hp
      simp only [List.filter_cons_of_neg hp, List.filter_cons_of_neg hq, ih2]

theorem refSums_agree (W H : Nat) (bodyA bodyB : List (List Nat)) (x y : Nat)
    (hagree : ∀ y2 < H, ∀ x2 < W, (x2 ≤ x + 2 ∧ x ≤ x2 + 2 ∧ y2 ≤ y + 2 ∧ y ≤ y2 + 2) →
      pixelAt? bodyA x2 y2 = pixelAt? bodyB x2 y2) :
    refTotalWeight W H bodyA x y = refTotalWeight W H bodyB x y ∧
    refWeightedSum W H bodyA x y = refWeightedSum W H bodyB x y := by
  constructor
  · unfold refTotalWeight
    apply sum_filter_agree
    intro o ho
    exact ⟨(contributes_agree W H bodyA bodyB x y hagree o ho).1, fun _ => rfl⟩
  · unfold refWeightedSum
    apply sum_filter_agree
    intro o ho
    obtain ⟨h1, h2⟩ := contributes_agree W H bodyA bodyB x y hagree o ho
    exact ⟨h1, fun hp => by simp only [h2 hp]⟩

theorem reduction_quotient (mn mx v : Nat) (hm : mn ≤ mx) (hv : mn ≤ v) :
    ((((v : ℤ) - (mn : ℤ) : ℤ) : ℚ)) / ((((mx : ℤ) - (mn : ℤ) + 1 : ℤ) : ℚ) / 256)
      = ((256 * (v - mn) : Nat) : ℚ) / ((mx - mn + 1 : Nat) : ℚ) := by
  have e1 : (((mx : ℤ) - (mn : ℤ) + 1 : ℤ) : ℚ) = ((mx - mn + 1 : Nat) : ℚ) := by
    push_cast [Nat.cast_sub hm]
    ring
  have e2 : (((v : ℤ) - (mn : ℤ) : ℤ) : ℚ) = ((v - mn : Nat) : ℚ) := by
    push_cast [Nat.cast_sub hv]
    ring
  rw [e1, e2]
  have hne : ((mx - mn + 1 : Nat) : ℚ) ≠ 0 := by positivity
  field_simp
  ring

/-! ## Gap-fill pass: copies, counters and fixpoints -/

/-- C13, valid land pixels are copied.  On a well-formed input, for a pixel
that the mask classifies as land and whose input value `v` is not 255, the
pass stores `v` at that pixel and the iteration of the column loop at that
pixel leaves the three counters as they were. -/
theorem fillMissingPixels_valid_land_copied (W H MW crop : Nat) (body : List (List Nat))
    (maskFile : List Nat) (hwf : WellFormed W H MW crop body maskFile) (x y m v : Nat)
    (hm : maskByte? W MW crop maskFile x y = some m) (hland : 128 < m)
    (hv : pixelAt? body x y = some v) (hne : v ≠ 255) :
    ∃ out res before after,
      fillMissingPixels W H MW crop body maskFile = some (out, res) ∧
      pixelTrace W H MW crop body maskFile x y = some (before, v, after) ∧
      pixelAt? out x y = some v ∧ after = before := by
  obtain ⟨hx, hy, _⟩ := pixelAt?_bounds W H MW crop body maskFile hwf x y v hv
  have hp : refPixel W H MW crop body maskFile x y = v := by
    unfold refPixel
    simp only [hm, hv, Option.getD_some]
    rw [if_pos hland, if_neg hne]
  have hc : ∀ c, refCount W H MW crop body maskFile x y c = c := by
    intro c
    unfold refCount
    simp only [hm, hv, Option.getD_some]
    rw [if_pos hland, if_neg hne]
  have ht := pixelTrace_eq W H MW crop body maskFile hwf x y hx hy
  rw [hp, hc] at ht
  have ho := pixelAt?_refBody W H MW crop body maskFile x y hx hy
  rw [hp] at ho
  exact ⟨_, _, _, _, fillMissingPixels_eq W H MW crop body maskFile hwf, ht, ho, rfl⟩

/-- C13 at the land pixel `(1, 1)` of the example raster, which holds 100. -/
theorem fillMissingPixels_valid_land_copied_witness :
    ∃ out res before after,
      fillMissingPixels 5 5 5 0 exampleBody exampleMask = some (out, res) ∧
      pixelTrace 5 5 5 0 exampleBody exampleMask 1 1 = some (before, 100, after) ∧
      pixelAt? out 1 1 = some 100 ∧ after = before :=
  fillMissingPixels_valid_land_copied 5 5 5 0 exampleBody exampleMask (by decide) 1 1 200 100
    (by decide) (by decide) (by decide) (by decide)

/-- C16, the counters partition the raster.  On a well-formed input the pass
ends with `waterPixels` equal to the number of pixels the mask classifies as
water and `fixedPixels + unfixablePixels` equal to the number of land pixels
whose input value is 255; together with the land pixels holding another value
the three counters add up to `W * H`; and the iteration at any pixel raises at
most one counter, by one. -/
theorem fillMissingPixels_counters_partition (W H MW crop : Nat) (body : List (List Nat))
    (maskFile : List Nat) (hwf : WellFormed W H MW crop body maskFile) :
    ∃ out res, fillMissingPixels W H MW crop body maskFile = some (out, res) ∧
      res.waterPixels = countPixels W H (fun x y => !isLand W MW crop maskFile x y) ∧
      res.fixedPixels + res.unfixablePixels
        = countPixels W H (fun x y => isLand W MW crop maskFile x y && isFill body x y) ∧
      res.fixedPixels + res.unfixablePixels + res.waterPixels
        + countPixels W H (fun x y => isLand W MW crop maskFile x y && !isFill body x y)
        = W * H ∧
      ∀ x y, x < W → y < H → ∃ before pixel after,
        pixelTrace W H MW crop body maskFile x y = some (before, pixel, after) ∧
        before.fixedPixels ≤ after.fixedPixels ∧
        before.unfixablePixels ≤ after.unfixablePixels ∧
        before.waterPixels ≤ after.waterPixels ∧
        after.fixedPixels + after.unfixablePixels + after.waterPixels
          ≤ before.fixedPixels + before.unfixablePixels + before.waterPixels + 1 := by
  refine ⟨_, _, fillMissingPixels_eq W H MW crop body maskFile hwf, ?_, ?_, ?_, ?_⟩
  · rw [refPassCount_indicator]
    simp only [countPixels]
    apply gridSum_congr
    intro x y _ _
    exact indicator_water _
  · rw [refPassCount_indicator]
    simp only [countPixels, gridSum_add]
    apply gridSum_congr
    intro x y _ _
    exact indicator_fill_land _ _ _
  · rw [refPassCount_indicator]
    simp only [countPixels, gridSum_add]
    rw [← gridSum_one W H]
    apply gridSum_congr
    intro x y _ _
    exact indicator_partition _ _ _
  · intro x y hx hy
    refine ⟨_, _, _, pixelTrace_eq W H MW crop body maskFile hwf x y hx hy, ?_⟩
    rw [refCount_indicator]
    exact indicator_step _ _ _ _ _ _

/-- C16 on the example raster: one water pixel, one repaired pixel. -/
theorem fillMissingPixels_counters_partition_witness :
    ∃ out res, fillMissingPixels 5 5 5 0 exampleBody exampleMask = some (out, res) ∧
      res.waterPixels = countPixels 5 5 (fun x y => !isLand 5 5 0 exampleMask x y) ∧
      res.fixedPixels + res.unfixablePixels
        = countPixels 5 5 (fun x y => isLand 5 5 0 exampleMask x y && isFill exampleBody x y) ∧
      res.fixedPixels + res.unfixablePixels + res.waterPixels
        + countPixels 5 5 (fun x y => isLand 5 5 0 exampleMask x y && !isFill exampleBody x y)
        = 5 * 5 ∧
      ∀ x y, x < 5 → y < 5 → ∃ before pixel after,
        pixelTrace 5 5 5 0 exampleBody exampleMask x y = some (before, pixel, after) ∧
        before.fixedPixels ≤ after.fixedPixels ∧
        before.unfixablePixels ≤ after.unfixablePixels ∧
        before.waterPixels ≤ after.waterPixels ∧
        after.fixedPixels + after.unfixablePixels + after.waterPixels
          ≤ before.fixedPixels + before.unfixablePixels + before.waterPixels + 1 :=
  fillMissingPixels_counters_partition 5 5 5 0 exampleBody exampleMask (by decide)

/-- C19, the fixed counter counts the changed pixels.  On a well-formed input
`fixedPixels` is the number of pixels whose output differs from the input, the
number of 255 pixels of the output plus `fixedPixels` is the number of 255
pixels of the input, no pixel holds 255 in the output unless it did in the
input, and when `fixedPixels = 0` the output body is the input body and every
number of chained passes returns it unchanged. -/
theorem fillMissingPixels_fixed_counts_changes (W H MW crop : Nat) (body : List (List Nat))
    (maskFile : List Nat) (hwf : WellFormed W H MW crop body maskFile) :
    ∃ out res, fillMissingPixels W H MW crop body maskFile = some (out, res) ∧
      res.fixedPixels = countPixels W H (differsAt body out) ∧
      countPixels W H (isFill out) + res.fixedPixels = countPixels W H (isFill body) ∧
      (∀ x y, x < W → y < H → isFill out x y = true → isFill body x y = true) ∧
      (res.fixedPixels = 0 →
        out = body ∧ ∀ n : Nat, runPasses W H MW crop maskFile n body = some body) := by
  have key : ∀ x y, x < W → y < H →
      differsAt body (refBody W H MW crop body maskFile H) x y
        = fixedAt W H MW crop body maskFile x y ∧
      (isFill (refBody W H MW crop body maskFile H) x y = true → isFill body x y = true) ∧
      (if isFill (refBody W H MW crop body maskFile H) x y = true then 1 else 0)
        + (if fixedAt W H MW crop body maskFile x y = true then 1 else 0)
        = (if isFill body x y = true then 1 else 0) := by
    intro x y hx hy
    obtain ⟨v, hv, _, ha, hb⟩ := refPixel_cases W H MW crop body maskFile hwf x y hx hy
    have ho := pixelAt?_refBody W H MW crop body maskFile x y hx hy
    cases hf : fixedAt W H MW crop body maskFile x y with
    | true =>
      obtain ⟨h1, h2, _⟩ := ha hf
      have hne : refPixel W H MW crop body maskFile x y ≠ 255 := by omega
      subst h1
      simp only [differsAt, isFill, ho, hv, Option.some.injEq, decide_eq_true_eq, hne,
        if_false, if_true]
      refine ⟨?_, fun h => absurd h (by simp), trivial⟩
      simp only [ne_eq, decide_eq_true_eq]
      exact fun h => hne (Option.some.inj h).symm
    | false =>
      have h1 := hb hf
      simp only [differsAt, isFill, ho, hv, h1, ne_eq, not_true_eq_false, decide_False,
        Bool.false_eq_true, if_false, Nat.add_zero, imp_self, and_self]
  refine ⟨_, _, fillMissingPixels_eq W H MW crop body maskFile hwf, ?_, ?_, ?_, ?_⟩
  · rw [refPassCount_indicator]
    simp only [countPixels]
    apply gridSum_congr
    intro x y hx hy
    rw [(key x y hx hy).1]
  · rw [refPassCount_indicator]
    simp only [countPixels, gridSum_add]
    apply gridSum_congr
    intro x y hx hy
    exact (key x y hx hy).2.2
  · intro x y hx hy
    exact (key x y hx hy).2.1
  · intro h0
    rw [refPassCount_indicator] at h0
    simp only at h0
    have hno : ∀ x y, x < W → y < H → fixedAt W H MW crop body maskFile x y = false := by
      intro x y hx hy
      have := (gridSum_eq_zero W H _).mp h0 x y hx hy
      cases hf : fixedAt W H MW crop body maskFile x y with
      | false => rfl
      | true => rw [hf] at this; simp at this
    exact ⟨refBody_eq_self W H MW crop body maskFile hwf hno,
      runPasses_fixpoint W H MW crop body maskFile hwf hno⟩

/-- C19 on the raster whose centre has total weight 11: nothing is repaired. -/
theorem fillMissingPixels_fixed_counts_changes_witness :
    ∃ out res, fillMissingPixels 5 5 5 0 weight11Body landMask = some (out, res) ∧
      res.fixedPixels = countPixels 5 5 (differsAt weight11Body out) ∧
      countPixels 5 5 (isFill out) + res.fixedPixels = countPixels 5 5 (isFill weight11Body) ∧
      (∀ x y, x < 5 → y < 5 → isFill out x y = true → isFill weight11Body x y = true) ∧
      (res.fixedPixels = 0 →
        out = weight11Body ∧ ∀ n : Nat, runPasses 5 5 5 0 landMask n weight11Body
          = some weight11Body) :=
  fillMissingPixels_fixed_counts_changes 5 5 5 0 weight11Body landMask (by decide)

/-- C12, single-gap repair.  On a well-formed input with an all-land mask
whose only fill pixel `(x0, y0)` is not on the border and whose other pixels in
the 5x5 window around it all hold `c`, the pass stores `c` at `(x0, y0)`,
leaves every other pixel as it was, and ends with `fixedPixels = 1`,
`unfixablePixels = 0` and `waterPixels = 0`. -/
theorem fillMissingPixels_single_gap (W H MW crop : Nat) (body : List (List Nat))
    (maskFile : List Nat) (hwf : WellFormed W H MW crop body maskFile) (x0 y0 c : Nat)
    (hland : ∀ y < H, ∀ x < W, isLand W MW crop maskFile x y = true)
    (hgap : pixelAt? body x0 y0 = some 255)
    (hint : 1 ≤ x0 ∧ x0 + 1 < W ∧ 1 ≤ y0 ∧ y0 + 1 < H)
    (hone : ∀ y < H, ∀ x < W, (x, y) ≠ (x0, y0) → isFill body x y = false)
    (hc : ∀ y < H, ∀ x < W,
      ((x, y) ≠ (x0, y0) ∧ x ≤ x0 + 2 ∧ x0 ≤ x + 2 ∧ y ≤ y0 + 2 ∧ y0 ≤ y + 2) →
      pixelAt? body x y = some c) :
    ∃ out, fillMissingPixels W H MW crop body maskFile
        = some (out, { fixedPixels := 1, unfixablePixels := 0, waterPixels := 0 }) ∧
      pixelAt? out x0 y0 = some c ∧
      ∀ y < H, ∀ x < W, (x, y) ≠ (x0, y0) → pixelAt? out x y = pixelAt? body x y := by
  obtain ⟨hx1, hx2, hy1, hy2⟩ := hint
  have hx0 : x0 < W := by omega
  have hy0 : y0 < H := by omega
  -- the value `c` is a valid byte
  have hcr : pixelAt? body (x0 + 1) y0 = some c :=
    hc y0 hy0 (x0 + 1) hx2 ⟨by simp, by omega, by omega, by omega, by omega⟩
  have hc255 : c ≠ 255 := by
    intro h
    have := hone y0 hy0 (x0 + 1) hx2 (by simp)
    rw [isFill, hcr, h] at this
    simp at this
  have hc256 := (pixelAt?_bounds W H MW crop body maskFile hwf (x0 + 1) y0 c hcr).2.2
  -- the neighbours of the gap
  have hval : ∀ o : Int × Int, o ∈ offsets → o ≠ (0, 0) →
      0 ≤ (x0 : Int) + o.1 → (x0 : Int) + o.1 < W → 0 ≤ (y0 : Int) + o.2 →
      (y0 : Int) + o.2 < H → neighborValue body x0 y0 o = c := by
    intro o ho hne h1 h2 h3 h4
    obtain ⟨b1, b2, b3, b4⟩ := offsets_bounds o ho
    obtain ⟨nx, hnx⟩ := Int.eq_ofNat_of_zero_le h1
    obtain ⟨ny, hny⟩ := Int.eq_ofNat_of_zero_le h3
    have hne2 : (nx, ny) ≠ (x0, y0) := by
      intro h
      simp only [Prod.mk.injEq] at h
      apply hne
      apply Prod.ext <;> simp only <;> omega
    have := hc ny (by omega) nx (by omega) ⟨hne2, by omega, by omega, by omega, by omega⟩
    simp only [neighborValue, hnx, hny, Int.toNat_ofNat, this, Option.getD_some]
    rw [if_neg (by omega)]
  have hcen : neighborValue body x0 y0 (0, 0) = 255 := by
    simp [neighborValue, hgap]
  have hcon : ∀ o : Int × Int, o ∈ offsets → o ≠ (0, 0) →
      0 ≤ (x0 : Int) + o.1 → (x0 : Int) + o.1 < W → 0 ≤ (y0 : Int) + o.2 →
      (y0 : Int) + o.2 < H → contributes W H body x0 y0 o = true := by
    intro o ho hne h1 h2 h3 h4
    simp only [contributes, decide_eq_true_eq, hval o ho hne h1 h2 h3 h4]
    exact ⟨h1, h2, h3, h4, hc255⟩
  have hall : ∀ o ∈ offsets, contributes W H body x0 y0 o = true →
      neighborValue body x0 y0 o = c := by
    intro o ho hco
    have hco2 := hco
    simp only [contributes, decide_eq_true_eq] at hco2
    obtain ⟨h1, h2, h3, h4, h5⟩ := hco2
    by_cases hz : o = (0, 0)
    · rw [hz] at h5
      exact absurd hcen h5
    · exact hval o ho hz h1 h2 h3 h4
  have htw : 16 ≤ refTotalWeight W H body x0 y0 := by
    apply refTotalWeight_direct
    · exact hcon (-1, 0) (by decide) (by decide) (by simp; omega) (by simp; omega)
        (by simp) (by simp; omega)
    · exact hcon (0, -1) (by decide) (by decide) (by simp) (by simp; omega)
        (by simp; omega) (by simp; omega)
    · exact hcon (0, 1) (by decide) (by decide) (by simp) (by simp; omega)
        (by simp; omega) (by simp; omega)
    · exact hcon (1, 0) (by decide) (by decide) (by simp; omega) (by simp; omega)
        (by simp) (by simp; omega)
  have hws : refWeightedSum W H body x0 y0 = refTotalWeight W H body x0 y0 * c := by
    unfold refWeightedSum refTotalWeight
    exact sum_filter_const offsets _ _ _ c hall
  -- the classes of the pixels
  have hfix0 : fixedAt W H MW crop body maskFile x0 y0 = true := by
    simp only [fixedAt, hland y0 hy0 x0 hx0, isFill, hgap, decide_True, Bool.and_self,
      Bool.true_and, decide_eq_true_eq]
    omega
  have hother : ∀ x y, x < W → y < H → (x, y) ≠ (x0, y0) →
      fixedAt W H MW crop body maskFile x y = false ∧
      unfixableAt W H MW crop body maskFile x y = false := by
    intro x y hx hy hne
    simp [fixedAt, unfixableAt, hone y hy x hx hne]
  have hunf0 : unfixableAt W H MW crop body maskFile x0 y0 = false := by
    simp only [unfixableAt, hland y0 hy0 x0 hx0, isFill, hgap, decide_True, Bool.and_self,
      Bool.true_and, Bool.not_eq_false', decide_eq_true_eq]
    omega
  have hcount : refPassCount W H MW crop body maskFile H
      = { fixedPixels := 1, unfixablePixels := 0, waterPixels := 0 } := by
    rw [refPassCount_indicator]
    have e1 : gridSum W H
        (fun x y => if fixedAt W H MW crop body maskFile x y = true then 1 else 0) = 1 := by
      refine Eq.trans (gridSum_congr W H _ (fun x y => if x = x0 ∧ y = y0 then 1 else 0) ?_)
        (gridSum_single W H x0 y0 hx0 hy0)
      intro x y hx hy
      show (if fixedAt W H MW crop body maskFile x y = true then 1 else 0)
        = if x = x0 ∧ y = y0 then 1 else 0
      by_cases hxy : x = x0 ∧ y = y0
      · rw [hxy.1, hxy.2, hfix0, if_pos rfl, if_pos ⟨rfl, rfl⟩]
      · have hne : (x, y) ≠ (x0, y0) := by
          intro h
          simp only [Prod.mk.injEq] at h
          exact hxy h
        rw [(hother x y hx hy hne).1, if_neg hxy]
        rfl
    have e2 : gridSum W H
        (fun x y => if unfixableAt W H MW crop body maskFile x y = true then 1 else 0) = 0 := by
      rw [gridSum_eq_zero]
      intro x y hx hy
      by_cases hxy : (x, y) = (x0, y0)
      · simp only [Prod.mk.injEq] at hxy
        rw [hxy.1, hxy.2, hunf0]
        rfl
      · rw [(hother x y hx hy hxy).2]
        rfl
    have e3 : gridSum W H
        (fun x y => if isLand W MW crop maskFile x y = true then 0 else 1) = 0 := by
      rw [gridSum_eq_zero]
      intro x y hx hy
      rw [hland y hy x hx, if_pos rfl]
    rw [e1, e2, e3]
  refine ⟨refBody W H MW crop body maskFile H, ?_, ?_, ?_⟩
  · rw [fillMissingPixels_eq W H MW crop body maskFile hwf, hcount]
  · rw [pixelAt?_refBody W H MW crop body maskFile x0 y0 hx0 hy0]
    obtain ⟨v, _, _, ha, _⟩ := refPixel_cases W H MW crop body maskFile hwf x0 y0 hx0 hy0
    rw [(ha hfix0).2.2, hws, Nat.mul_div_cancel_left c (by omega)]
  · intro y hy x hx hne
    rw [pixelAt?_refBody W H MW crop body maskFile x y hx hy]
    obtain ⟨v, hv, _, _, hb⟩ := refPixel_cases W H MW crop body maskFile hwf x y hx hy
    rw [hb (hother x y hx hy hne).1, hv]

/-- C12 on the 8x8 raster of the scenario, `c = 100`, mask resolution one
quarter of the raster. -/
theorem fillMissingPixels_single_gap_witness :
    ∃ out, fillMissingPixels 8 8 2 0 scenarioBody scenarioMask
        = some (out, { fixedPixels := 1, unfixablePixels := 0, waterPixels := 0 }) ∧
      pixelAt? out 3 3 = some 100 ∧
      ∀ y < 8, ∀ x < 8, (x, y) ≠ (3, 3) → pixelAt? out x y = pixelAt? scenarioBody x y :=
  fillMissingPixels_single_gap 8 8 2 0 scenarioBody scenarioMask (by decide) 3 3 100
    (by decide) (by decide) (by decide) (by decide) (by decide)

theorem readMaskRow_of_length (W MW crop : Nat) (maskFile : List Nat) (y : Nat)
    (h : maskOffset W MW crop y + MW ≤ maskFile.length) :
    readMaskRow W MW crop maskFile y
        = some ((maskFile.drop (maskOffset W MW crop y)).take MW) ∧
    ((maskFile.drop (maskOffset W MW crop y)).take MW).length = MW := by
  have hl : ((maskFile.drop (maskOffset W MW crop y)).take MW).length = MW := by
    rw [List.length_take, List.length_drop]
    omega
  refine ⟨?_, hl⟩
  unfold readMaskRow
  simp only [hl, if_true]

theorem maskByte?_of_length (W MW crop : Nat) (maskFile : List Nat) (x y : Nat)
    (h : maskOffset W MW crop y + MW ≤ maskFile.length) (hx : x / (W / MW) < MW) :
    (maskByte? W MW crop maskFile x y).isSome = true := by
  obtain ⟨hr, hl⟩ := readMaskRow_of_length W MW crop maskFile y h
  unfold maskByte?
  rw [hr]
  simp only
  rw [List.getElem?_eq_getElem (by rw [hl]; exact hx)]
  exact Option.isSome_some

/-! ## Mask offsets: the claims -/

/-- C11, crop offset and seek position.  The products of the initialiser of
`CROPPED_TOP_PIXELS` stay below `2^31`, its value is 3,240,000, and for every
row `y < 16800` the pass reads its mask row at byte offset
`(y / 4) * 10800 + 3240000` of the mask file. -/
theorem maskOffset_crop (maskFile : List Nat) (y : Nat) (hy : y < IMAGE_HEIGHT) :
    MASK_WIDTH * MASK_HEIGHT < 2 ^ 31 ∧ MASK_WIDTH * MASK_HEIGHT * 10 < 2 ^ 31 ∧
    CROPPED_TOP_PIXELS = 3240000 ∧
    maskOffset IMAGE_WIDTH MASK_WIDTH CROPPED_TOP_PIXELS y = y / 4 * 10800 + 3240000 ∧
    (∀ maskRow,
      readMaskRow IMAGE_WIDTH MASK_WIDTH CROPPED_TOP_PIXELS maskFile y = some maskRow →
      maskRow = (maskFile.drop (y / 4 * 10800 + 3240000)).take 10800) := by
  have hoff : maskOffset IMAGE_WIDTH MASK_WIDTH CROPPED_TOP_PIXELS y
      = y / 4 * 10800 + 3240000 := by
    simp only [maskOffset, IMAGE_WIDTH, MASK_WIDTH, MASK_HEIGHT, CROPPED_TOP_PIXELS,
      IMAGE_HEIGHT] at hy ⊢
    omega
  refine ⟨by decide, by decide, by decide, hoff, ?_⟩
  intro maskRow h
  unfold readMaskRow at h
  rw [hoff] at h
  simp only [MASK_WIDTH] at h
  split at h
  · exact (Option.some.inj h).symm
  · cases h

/-- C11 at `y = 4`: the mask row is read at byte offset 3,250,800. -/
theorem maskOffset_crop_witness :
    maskOffset IMAGE_WIDTH MASK_WIDTH CROPPED_TOP_PIXELS 4 = 3250800 :=
  (maskOffset_crop [] 4 (by decide)).2.2.2.1

/-- C17, mask accesses stay in bounds.  For every row `y < 16800` the mask
row of the pass starts at mask row `300 + y / 4`, a whole multiple of 10800,
and ends inside a mask file of `10800 * 5400` bytes, so the read succeeds on
such a file; and for every column `x < 43200` the index `x / 4` lies inside
the mask row. -/
theorem maskRow_in_bounds (y x : Nat) (hy : y < IMAGE_HEIGHT) (hx : x < IMAGE_WIDTH) :
    y / 4 * 10800 + CROPPED_TOP_PIXELS + 10800 ≤ 10800 * 5400 ∧
    maskOffset IMAGE_WIDTH MASK_WIDTH CROPPED_TOP_PIXELS y + MASK_WIDTH
      ≤ MASK_WIDTH * MASK_HEIGHT ∧
    maskOffset IMAGE_WIDTH MASK_WIDTH CROPPED_TOP_PIXELS y = (300 + y / 4) * MASK_WIDTH ∧
    x / (IMAGE_WIDTH / MASK_WIDTH) < MASK_WIDTH ∧
    (∀ maskFile : List Nat, maskFile.length = MASK_WIDTH * MASK_HEIGHT →
      ∃ maskRow, readMaskRow IMAGE_WIDTH MASK_WIDTH CROPPED_TOP_PIXELS maskFile y = some maskRow ∧
        maskRow.length = MASK_WIDTH ∧
        (maskByte? IMAGE_WIDTH MASK_WIDTH CROPPED_TOP_PIXELS maskFile x y).isSome = true) := by
  have hoff : maskOffset IMAGE_WIDTH MASK_WIDTH CROPPED_TOP_PIXELS y
      = (300 + y / 4) * MASK_WIDTH := by
    simp only [maskOffset, IMAGE_WIDTH, MASK_WIDTH, MASK_HEIGHT, CROPPED_TOP_PIXELS,
      IMAGE_HEIGHT] at hy ⊢
    omega
  have hcol : x / (IMAGE_WIDTH / MASK_WIDTH) < MASK_WIDTH := by
    simp only [IMAGE_WIDTH, MASK_WIDTH] at hx ⊢
    omega
  have hend : maskOffset IMAGE_WIDTH MASK_WIDTH CROPPED_TOP_PIXELS y + MASK_WIDTH
      ≤ MASK_WIDTH * MASK_HEIGHT := by
    rw [hoff]
    simp only [IMAGE_HEIGHT, MASK_WIDTH, MASK_HEIGHT] at hy ⊢
    omega
  refine ⟨?_, hend, hoff, hcol, ?_⟩
  · simp only [IMAGE_HEIGHT, CROPPED_TOP_PIXELS, MASK_WIDTH, MASK_HEIGHT] at hy ⊢
    omega
  · intro maskFile hlen
    have hfit : maskOffset IMAGE_WIDTH MASK_WIDTH CROPPED_TOP_PIXELS y + MASK_WIDTH
        ≤ maskFile.length := by
      rw [hlen]
      exact hend
    obtain ⟨hr, hl⟩ :=
      readMaskRow_of_length IMAGE_WIDTH MASK_WIDTH CROPPED_TOP_PIXELS maskFile y hfit
    exact ⟨_, hr, hl,
      maskByte?_of_length IMAGE_WIDTH MASK_WIDTH CROPPED_TOP_PIXELS maskFile x y hfit hcol⟩

/-- C17 at the last row and the last column of the raster. -/
theorem maskRow_in_bounds_witness :
    16799 / 4 * 10800 + CROPPED_TOP_PIXELS + 10800 ≤ 10800 * 5400 ∧
    maskOffset IMAGE_WIDTH MASK_WIDTH CROPPED_TOP_PIXELS 16799 + MASK_WIDTH
      ≤ MASK_WIDTH * MASK_HEIGHT ∧
    maskOffset IMAGE_WIDTH MASK_WIDTH CROPPED_TOP_PIXELS 16799
      = (300 + 16799 / 4) * MASK_WIDTH ∧
    43199 / (IMAGE_WIDTH / MASK_WIDTH) < MASK_WIDTH ∧
    (∀ maskFile : List Nat, maskFile.length = MASK_WIDTH * MASK_HEIGHT →
      ∃ maskRow,
        readMaskRow IMAGE_WIDTH MASK_WIDTH CROPPED_TOP_PIXELS maskFile 16799 = some maskRow ∧
        maskRow.length = MASK_WIDTH ∧
        (maskByte? IMAGE_WIDTH MASK_WIDTH CROPPED_TOP_PIXELS maskFile 43199 16799).isSome
          = true) :=
  maskRow_in_bounds 16799 43199 (by decide) (by decide)

/-! ## Window, locality and quantisation: the claims -/

/-- C15, sliding-window invariant.  On a well-formed input, for every row
`y < H` the pass reaches row `y` and, after the window is advanced, slot `k`
holds input row `y - 2 + k` whenever that row exists, so slot 2 holds row `y`;
every stencil access that passes the bounds check of line 295 reads a slot
that holds the input row `y + j` at a column below `W`; and no step of the
stencil dereferences a null slot or reads past the end of a row. -/
theorem fillMissingPixels_window_invariant (W H MW crop : Nat) (body : List (List Nat))
    (maskFile : List Nat) (hwf : WellFormed W H MW crop body maskFile) (y : Nat)
    (hy : y < H) :
    ∃ s rows rest,
      fillRows W H MW crop body maskFile y = some s ∧
      advanceWindow W H y s.rows s.inputFile = some (rows, rest) ∧
      (∀ k, k < 5 → 2 ≤ y + k → y + k - 2 < H →
        ∃ row, rows.getD k none = some row ∧ body[y + k - 2]? = some row) ∧
      rows.getD 2 none = body[y]? ∧
      (∀ x : Nat, x < W → ∀ i ∈ offsetRange, ∀ j ∈ offsetRange,
        ¬ ((x : Int) + i < 0 ∨ (x : Int) + i ≥ (W : Int) ∨ (y : Int) + j < 0
            ∨ (y : Int) + j ≥ (H : Int)) →
        ∃ row v, rows.getD (2 + j).toNat none = some row ∧
          body[((y : Int) + j).toNat]? = some row ∧
          ((x : Int) + i).toNat < W ∧ row[((x : Int) + i).toNat]? = some v) ∧
      (∀ x : Nat, x < W → ∀ i ∈ offsetRange, ∀ j ∈ offsetRange, ∀ acc,
        (neighborStep W H rows x y acc i j).isSome = true) := by
  have hlen := hwf.2.1
  have hrow : ∀ row ∈ body, row.length = W := fun r hr => (hwf.2.2.1 r hr).1
  refine ⟨_, _, _, fillRows_eq W H MW crop body maskFile hwf y (by omega),
    advanceWindow_eq W H body y hy hlen hrow, ?_, ?_, ?_, ?_⟩
  · intro k hk h2 hlt
    have hL : y + k - 2 < body.length := by omega
    refine ⟨body[y + k - 2], ?_, List.getElem?_eq_getElem hL⟩
    have := windowAt_row body H y ((k : Int) - 2) (y + k - 2) (by omega) (by omega)
      (by omega) hlt
    have e : (2 + ((k : Int) - 2)).toNat = k := by omega
    rw [e] at this
    rw [this, List.getElem?_eq_getElem hL]
  · exact windowAt_row body H y 0 y (by decide) (by decide) (by simp) hy
  · intro x hx i _ j hj hb
    obtain ⟨hj1, hj2⟩ := offsetRange_bounds j hj
    have hx0 : 0 ≤ (x : Int) + i := by omega
    have hy0 : 0 ≤ (y : Int) + j := by omega
    obtain ⟨nx, hnx⟩ := Int.eq_ofNat_of_zero_le hx0
    obtain ⟨ny, hny⟩ := Int.eq_ofNat_of_zero_le hy0
    have hnyL : ny < body.length := by omega
    have hrl : (body[ny]).length = W := hrow _ (List.getElem_mem hnyL)
    have hnxL : nx < (body[ny]).length := by omega
    refine ⟨body[ny], (body[ny])[nx], ?_, ?_, ?_, ?_⟩
    · rw [windowAt_row body H y j ny hj1 hj2 hny.symm (by omega),
        List.getElem?_eq_getElem hnyL]
    · rw [hny, Int.toNat_ofNat, List.getElem?_eq_getElem hnyL]
    · rw [hnx, Int.toNat_ofNat]
      omega
    · rw [hnx, Int.toNat_ofNat, List.getElem?_eq_getElem hnxL]
  · intro x _ i _ j hj acc
    obtain ⟨hj1, hj2⟩ := offsetRange_bounds j hj
    rw [neighborStep_eq W H body x y acc i j hj1 hj2 hlen hrow]
    rfl

/-- C15 at the last row of the example raster, where slots 3 and 4 lie below
the raster. -/
theorem fillMissingPixels_window_invariant_witness :
    ∃ s rows rest,
      fillRows 5 5 5 0 exampleBody exampleMask 4 = some s ∧
      advanceWindow 5 5 4 s.rows s.inputFile = some (rows, rest) ∧
      (∀ k, k < 5 → 2 ≤ 4 + k → 4 + k - 2 < 5 →
        ∃ row, rows.getD k none = some row ∧ exampleBody[4 + k - 2]? = some row) ∧
      rows.getD 2 none = exampleBody[4]? ∧
      (∀ x : Nat, x < 5 → ∀ i ∈ offsetRange, ∀ j ∈ offsetRange,
        ¬ ((x : Int) + i < 0 ∨ (x : Int) + i ≥ ((5 : Nat) : Int) ∨ ((4 : Nat) : Int) + j < 0
            ∨ ((4 : Nat) : Int) + j ≥ ((5 : Nat) : Int)) →
        ∃ row v, rows.getD (2 + j).toNat none = some row ∧
          exampleBody[(((4 : Nat) : Int) + j).toNat]? = some row ∧
          ((x : Int) + i).toNat < 5 ∧ row[((x : Int) + i).toNat]? = some v) ∧
      (∀ x : Nat, x < 5 → ∀ i ∈ offsetRange, ∀ j ∈ offsetRange, ∀ acc,
        (neighborStep 5 5 rows x 4 acc i j).isSome = true) :=
  fillMissingPixels_window_invariant 5 5 5 0 exampleBody exampleMask (by decide) 4 (by decide)

/-- C18, repairs do not cascade.  For two well-formed input rasters with the
same mask that agree on the 5x5 window around `(x, y)`, the pass stores the
same value at `(x, y)`; that value is the one computed from the input raster
alone (`refPixel`: the weighted average of the input values around the
pixel), whatever the pass stored at neighbouring pixels before. -/
theorem fillMissingPixels_no_cascade (W H MW crop : Nat) (bodyA bodyB : List (List Nat))
    (maskFile : List Nat) (hwfA : WellFormed W H MW crop bodyA maskFile)
    (hwfB : WellFormed W H MW crop bodyB maskFile) (x y : Nat) (hx : x < W) (hy : y < H)
    (hagree : ∀ y2 < H, ∀ x2 < W, (x2 ≤ x + 2 ∧ x ≤ x2 + 2 ∧ y2 ≤ y + 2 ∧ y ≤ y2 + 2) →
      pixelAt? bodyA x2 y2 = pixelAt? bodyB x2 y2) :
    ∃ outA resA outB resB,
      fillMissingPixels W H MW crop bodyA maskFile = some (outA, resA) ∧
      fillMissingPixels W H MW crop bodyB maskFile = some (outB, resB) ∧
      pixelAt? outA x y = pixelAt? outB x y ∧
      pixelAt? outA x y = some (refPixel W H MW crop bodyA maskFile x y) := by
  obtain ⟨h1, h2⟩ := refSums_agree W H bodyA bodyB x y hagree
  have hc := hagree y hy x hx ⟨by omega, by omega, by omega, by omega⟩
  have hp : refPixel W H MW crop bodyA maskFile x y = refPixel W H MW crop bodyB maskFile x y := by
    unfold refPixel
    rw [h1, h2, hc]
  refine ⟨_, _, _, _, fillMissingPixels_eq W H MW crop bodyA maskFile hwfA,
    fillMissingPixels_eq W H MW crop bodyB maskFile hwfB, ?_,
    pixelAt?_refBody W H MW crop bodyA maskFile x y hx hy⟩
  rw [pixelAt?_refBody W H MW crop bodyA maskFile x y hx hy,
    pixelAt?_refBody W H MW crop bodyB maskFile x y hx hy, hp]

/-- C18 at `(4, 3)` of a raster with the adjacent fill pixels `(3, 3)` and
`(4, 3)`, against a raster that differs at `(0, 0)` and `(1, 3)`. -/
theorem fillMissingPixels_no_cascade_witness :
    ∃ outA resA outB resB,
      fillMissingPixels 8 8 2 0 twoGapBody scenarioMask = some (outA, resA) ∧
      fillMissingPixels 8 8 2 0 twoGapBodyFar scenarioMask = some (outB, resB) ∧
      pixelAt? outA 4 3 = pixelAt? outB 4 3 ∧
      pixelAt? outA 4 3 = some (refPixel 8 8 2 0 twoGapBody scenarioMask 4 3) :=
  fillMissingPixels_no_cascade 8 8 2 0 twoGapBody twoGapBodyFar scenarioMask (by decide)
    (by decide) 4 3 (by decide) (by decide) (by decide)

/-- C20, quantisation error.  For `min ≤ v ≤ max ≤ 65528`, `N = max - min + 1`
and the reduction factor `N / 256`, the reduced sample `r` of `v` satisfies
`r * N ≤ 256 * (v - min) < (r + 1) * N`, that is
`min + r * factor ≤ v < min + (r + 1) * factor`; `r` is the integer part of the
exact quotient and is at most 255, so the conversion to eight bits loses
nothing; and the minimum is reduced to 0. -/
theorem reducedPixel_quantisation (mn mx v : Nat) (hv : mn ≤ v) (hv2 : v ≤ mx)
    (hmx : mx ≤ 65528) :
    reducedPixel mn ((((mx : ℤ) - (mn : ℤ) + 1 : ℤ) : ℚ) / 256) v * (mx - mn + 1)
      ≤ 256 * (v - mn) ∧
    256 * (v - mn)
      < (reducedPixel mn ((((mx : ℤ) - (mn : ℤ) + 1 : ℤ) : ℚ) / 256) v + 1) * (mx - mn + 1) ∧
    (mn : ℚ) + (reducedPixel mn ((((mx : ℤ) - (mn : ℤ) + 1 : ℤ) : ℚ) / 256) v : ℚ)
        * ((((mx : ℤ) - (mn : ℤ) + 1 : ℤ) : ℚ) / 256) ≤ (v : ℚ) ∧
    (v : ℚ) < (mn : ℚ)
        + ((reducedPixel mn ((((mx : ℤ) - (mn : ℤ) + 1 : ℤ) : ℚ) / 256) v : ℚ) + 1)
        * ((((mx : ℤ) - (mn : ℤ) + 1 : ℤ) : ℚ) / 256) ∧
    reducedPixel mn ((((mx : ℤ) - (mn : ℤ) + 1 : ℤ) : ℚ) / 256) v ≤ 255 ∧
    ⌊((((v : ℤ) - (mn : ℤ) : ℤ) : ℚ)) / ((((mx : ℤ) - (mn : ℤ) + 1 : ℤ) : ℚ) / 256)⌋
      = (reducedPixel mn ((((mx : ℤ) - (mn : ℤ) + 1 : ℤ) : ℚ) / 256) v : ℤ) ∧
    reducedPixel mn ((((mx : ℤ) - (mn : ℤ) + 1 : ℤ) : ℚ) / 256) mn = 0 := by
  have hr := reducedPixel_in_range mn mx v hv hv2 hmx
  have hr0 := reducedPixel_in_range mn mx mn (le_refl _) (by omega) hmx
  have hN : 0 < mx - mn + 1 := by omega
  have h1 : 256 * (v - mn) / (mx - mn + 1) * (mx - mn + 1) ≤ 256 * (v - mn) :=
    Nat.div_mul_le_self _ _
  have h2 : 256 * (v - mn) < (256 * (v - mn) / (mx - mn + 1) + 1) * (mx - mn + 1) := by
    rw [← Nat.div_lt_iff_lt_mul hN]
    omega
  have h3 : 256 * (v - mn) / (mx - mn + 1) ≤ 255 := by
    have : 256 * (v - mn) / (mx - mn + 1) < 256 := by
      rw [Nat.div_lt_iff_lt_mul hN]
      omega
    omega
  have eN : (((mx : ℤ) - (mn : ℤ) + 1 : ℤ) : ℚ) = ((mx - mn + 1 : Nat) : ℚ) := by
    push_cast [Nat.cast_sub (le_trans hv hv2)]
    ring
  have eV : ((v - mn : Nat) : ℚ) = (v : ℚ) - (mn : ℚ) := by
    push_cast [Nat.cast_sub hv]
    ring
  have q1 : ((256 * (v - mn) / (mx - mn + 1) * (mx - mn + 1) : Nat) : ℚ)
      ≤ ((256 * (v - mn) : Nat) : ℚ) := by exact_mod_cast h1
  have q2 : ((256 * (v - mn) : Nat) : ℚ)
      < (((256 * (v - mn) / (mx - mn + 1) + 1) * (mx - mn + 1) : Nat) : ℚ) := by
    exact_mod_cast h2
  rw [hr, hr0]
  refine ⟨h1, h2, ?_, ?_, h3, ?_, ?_⟩
  · rw [eN]
    rw [Nat.cast_mul, Nat.cast_mul, eV] at q1
    push_cast at q1 ⊢
    linarith
  · rw [eN]
    rw [Nat.cast_mul, Nat.cast_mul, Nat.cast_add, eV] at q2
    push_cast at q2 ⊢
    linarith
  · rw [reduction_quotient mn mx v (le_trans hv hv2) hv, Rat.floor_natCast_div_natCast]
    norm_cast
  · simp

/-- C20 for `min = 10`, `max = 1000` and the sample 500. -/
theorem reducedPixel_quantisation_witness :
    reducedPixel 10 (((((1000 : Nat) : ℤ) - ((10 : Nat) : ℤ) + 1 : ℤ) : ℚ) / 256) 500
        * (1000 - 10 + 1) ≤ 256 * (500 - 10) ∧
    256 * (500 - 10)
      < (reducedPixel 10 (((((1000 : Nat) : ℤ) - ((10 : Nat) : ℤ) + 1 : ℤ) : ℚ) / 256) 500 + 1)
        * (1000 - 10 + 1) ∧
    reducedPixel 10 (((((1000 : Nat) : ℤ) - ((10 : Nat) : ℤ) + 1 : ℤ) : ℚ) / 256) 500 ≤ 255 ∧
    reducedPixel 10 (((((1000 : Nat) : ℤ) - ((10 : Nat) : ℤ) + 1 : ℤ) : ℚ) / 256) 10 = 0 :=
  have h := reducedPixel_quantisation 10 1000 500 (by decide) (by decide) (by decide)
  ⟨h.1, h.2.1, h.2.2.2.2.1, h.2.2.2.2.2.2⟩

/-! ## Entry point: the claim -/

theorem passLoop_endless : ∀ (steps i : Nat), i < 2 ^ 32 →
    (passLoop (2 ^ 32 - 1) steps i).2 = false
  | 0, i, hi => by
    simp only [passLoop, decide_eq_false_iff_not, not_not]
    omega
  | steps + 1, i, hi => by
    have hle : i ≤ 2 ^ 32 - 1 := by omega
    simp only [passLoop, hle, if_true]
    exact passLoop_endless steps ((i + 1) % 2 ^ 32) (Nat.mod_lt _ (by decide))

theorem passLoop_finite (passes : Nat) (hp : passes < 2 ^ 32 - 1) :
    ∀ (k i : Nat), i + k = passes + 1 → 1 ≤ i →
    passLoop passes (k + 1) i = ((List.range k).map (fun n => Call.fillMissingPixels (i + n)), true)
  | 0, i, h, _ => by
    have : ¬ i ≤ passes := by omega
    simp [passLoop, this]
  | k + 1, i, h, hi => by
    have hle : i ≤ passes := by omega
    have hmod : (i + 1) % 2 ^ 32 = i + 1 := Nat.mod_eq_of_lt (by omega)
    rw [passLoop, if_pos hle, hmod, passLoop_finite passes hp k (i + 1) (by omega) (by omega)]
    simp only [List.range_succ_eq_map, List.map_cons, List.map_map, Nat.add_zero]
    congr 2
    apply List.map_congr_left
    intro n _
    simp only [Function.comp]
    congr 1
    omega

/-- For a count `0 < N < 2^32 - 1` the run calls `findPixelRange`,
`reduceBitDepth` and passes `1 .. N` in order and returns 0. -/
theorem main_positive (N : Nat) (h0 : 0 < N) (hN : N < 2 ^ 32 - 1) :
    main 2 (some (N : Int)) (N + 1) =
      some { printed := [],
             calls := [Call.findPixelRange, Call.reduceBitDepth]
               ++ (List.range N).map (fun n => Call.fillMissingPixels (1 + n)),
             status := some 0 } := by
  have hp : ((N : Int) % 2 ^ 32).toNat = N := by omega
  have hn : ¬ N ≤ 0 := by omega
  simp only [main, hp, hn, if_false, passLoop_finite N hN N 1 (by omega) (le_refl 1)]
  simp

/-- C14, the code at the failing input.  With two arguments and the text `-1`
(for which `strtol` returns -1) the run prints nothing, does not exit with
status 1, and calls `findPixelRange`, `reduceBitDepth` and then passes without
end: after any number of observed iterations the loop is still running.  With
the value 0 (the text `0` or non-numeric text) the run prints the complaint
and exits with status 1 before any call. -/
theorem main_negative_count_runs :
    main 2 (some (-1)) 3 =
      some { printed := [],
             calls := [Call.findPixelRange, Call.reduceBitDepth, Call.fillMissingPixels 1,
                       Call.fillMissingPixels 2, Call.fillMissingPixels 3],
             status := none } ∧
    (∀ steps : Nat, ∃ r, main 2 (some (-1)) steps = some r ∧ r.printed = [] ∧
      r.status = none ∧ r.calls.take 2 = [Call.findPixelRange, Call.reduceBitDepth]) ∧
    (∀ steps : Nat, main 2 (some 0) steps =
      some { printed := [Message.notPositive], calls := [], status := some 1 }) := by
  refine ⟨by decide, ?_, ?_⟩
  · intro steps
    have hp : (((-1 : Int)) % 2 ^ 32).toNat = 2 ^ 32 - 1 := by decide
    have hn : ¬ (2 ^ 32 - 1 ≤ 0) := by decide
    refine ⟨_, by simp only [main, hp, hn, if_false]; rfl, ?_, ?_, ?_⟩
    · simp
    · simp only [passLoop_endless steps 1 (by decide)]
      simp
    · simp
  · intro steps
    simp [main]

end DataPreparer
